import Mathlib

/-!
Verification development for the YFeed feed-aggregation core.

The definitions below are a shallow embedding of the Python sources:
  - `src/utils/manager.py`   (class `YouTubeFeedManager`): duration codec,
    feed fetching, the cache-aware `fetch_videos` pipeline;
  - `src/utils/interface.py` / `src/main.py` (`videos_menu`): the
    cross-source merge, the recency cutoff and the watched-marking;
  - `src/utils/extractor.py` (`Extractor.get_channel_names`).

Machine integers are modelled as `Nat`/`Int` (Python integers are unbounded,
so no wrap-around modelling is needed).  Python dictionaries are modelled as
functions into `Option`; file-backed state (the metadata cache) is threaded
explicitly.  Network calls are modelled as oracle arguments together with a
call counter in the result.
-/

namespace YFeed

/-! ### Duration codec

`YouTubeFeedManager.iso_duration_to_seconds` (src/utils/manager.py:120-131)
matches the input against the Python regex

  `PT(?:(\d+)H)?(?:(\d+)M)?(?:(\d+)S)?|P(\d+)D?`

with `re.match` (anchored at the start, not at the end) and returns
`days*86400 + hours*3600 + minutes*60 + seconds`, where a failed match is
reported as a warning and yields 0.  The embedding below reproduces the
regex by hand.  Note the alternation: the first alternative fires exactly
when the string starts with the literal `PT` (all three groups optional),
and only otherwise is `P(\d+)D?` tried, which requires at least one digit
after `P`.  Digits are ASCII digits (`Char.isDigit`), matching the
behaviour of `\d` on the ASCII range.
-/

/-- Greedy run of leading ASCII digits, returning the digits and the rest.
Models the behaviour of a greedy `(\d+)` group: since the letters that
follow the groups in the regex are never digits, the greedy match with a
single check of the following character is exact. -/
def takeDigits : List Char → List Char × List Char
  | [] => ([], [])
  | c :: cs =>
    if c.isDigit then
      let p := takeDigits cs
      (c :: p.1, p.2)
    else ([], c :: cs)

/-- Value of a digit string, as Python `int()` computes it. -/
def digitsToNat (ds : List Char) : Nat :=
  ds.foldl (fun a c => a * 10 + (c.toNat - 48)) 0

/-- One optional group `(?:(\d+)X)?` of the regex: consume a non-empty digit
run followed by the marker character, or consume nothing. -/
def optComp (marker : Char) (cs : List Char) : Option Nat × List Char :=
  let p := takeDigits cs
  match p.1, p.2 with
  | [], _ => (none, cs)
  | _ :: _, [] => (none, cs)
  | d :: ds, c :: rest =>
    if c = marker then (some (digitsToNat (d :: ds)), rest) else (none, cs)

/-- Result of `re.match` on the duration regex: either the `PT…` alternative
with its three optional groups, or the `P(\d+)D?` alternative. -/
inductive DurMatch where
  | timeForm (h m s : Option Nat)
  | dayForm (d : Nat)
deriving DecidableEq, Repr

/-- The anchored match of the duration regex, `none` when neither
alternative matches at the start of the string.  The first alternative
fires exactly on the literal `PT`; only otherwise (so never on a string
starting `PT`) is `P(\d+)D?` tried, whose optional `D` and any trailing
characters are ignored by the unanchored end. -/
def durationMatch (s : String) : Option DurMatch :=
  match s.data with
  | [] => none
  | c :: cs =>
    if c = 'P' then
      match cs with
      | [] => none
      | c2 :: cs2 =>
        if c2 = 'T' then
          let ph := optComp 'H' cs2
          let pm := optComp 'M' ph.2
          let ps := optComp 'S' pm.2
          some (.timeForm ph.1 pm.1 ps.1)
        else
          match (takeDigits (c2 :: cs2)).1 with
          | [] => none
          | d :: ds => some (.dayForm (digitsToNat (d :: ds)))
    else none

/-- `YouTubeFeedManager.iso_duration_to_seconds`: total seconds of the
matched groups; a failed match prints a warning and returns 0.  In the
`PT` alternative the day group is empty, in the `P…D` alternative the
hour/minute/second groups are empty, so the single Python formula
`days*86400 + hours*3600 + minutes*60 + seconds` specialises as below. -/
def iso_duration_to_seconds (s : String) : Nat :=
  match durationMatch s with
  | none => 0
  | some (.timeForm h m sec) => h.getD 0 * 3600 + m.getD 0 * 60 + sec.getD 0
  | some (.dayForm d) => d * 86400

/-! ### Timestamp codec

`datetime.strptime(x, "%Y-%m-%dT%H:%M:%S%z")` as used in
src/utils/manager.py:189 and :257.  `strptime` requires the whole string to
match and raises `ValueError` otherwise; the embedding returns `Option`.
The `%z` directive accepts `Z`/`z` or a sign with `HH:MM` or `HHMM`. -/

structure Timestamp where
  year : Nat
  month : Nat
  day : Nat
  hour : Nat
  minute : Nat
  second : Nat
  offMinutes : Int
deriving DecidableEq, Repr

/-- Read exactly two ASCII digits. -/
def read2 : List Char → Option (Nat × List Char)
  | a :: b :: r =>
    if a.isDigit && b.isDigit then some ((a.toNat - 48) * 10 + (b.toNat - 48), r)
    else none
  | _ => none

/-- Expect one specific character. -/
def expectChar (c : Char) : List Char → Option (List Char)
  | [] => none
  | a :: r => if a = c then some r else none

/-- The `%z` part: `Z`, `z`, or sign followed by `HH:MM` or `HHMM`,
consuming the entire remainder. -/
def parseOffset : List Char → Option Int
  | ['Z'] => some 0
  | ['z'] => some 0
  | sign :: rest =>
    if sign = '+' || sign = '-' then
      match read2 rest with
      | none => none
      | some (hh, r1) =>
        let r1' := match r1 with
          | ':' :: r2 => r2
          | _ => r1
        match read2 r1' with
        | none => none
        | some (mm, r3) =>
          if r3.isEmpty && mm ≤ 59 then
            let v : Int := (hh : Int) * 60 + (mm : Int)
            some (if sign = '-' then -v else v)
          else none
    else none
  | [] => none

/-- `datetime.strptime(s, "%Y-%m-%dT%H:%M:%S%z")`, `none` on `ValueError`. -/
def parseTimestamp (s : String) : Option Timestamp := do
  let (y1, r1) ← read2 s.data
  let (y2, r2) ← read2 r1
  let r3 ← expectChar '-' r2
  let (mo, r4) ← read2 r3
  let r5 ← expectChar '-' r4
  let (d, r6) ← read2 r5
  let r7 ← expectChar 'T' r6
  let (h, r8) ← read2 r7
  let r9 ← expectChar ':' r8
  let (mi, r10) ← read2 r9
  let r11 ← expectChar ':' r10
  let (sec, r12) ← read2 r11
  let off ← parseOffset r12
  if 1 ≤ mo && mo ≤ 12 && 1 ≤ d && d ≤ 31 && h ≤ 23 && mi ≤ 59 && sec ≤ 61 then
    some ⟨y1 * 100 + y2, mo, d, h, mi, sec, off⟩
  else none

/-- Civil date to day count (days since 1970-01-01), the standard
days-from-civil computation with floor division. -/
def daysFromCivil (y m d : Int) : Int :=
  let y2 := if m ≤ 2 then y - 1 else y
  let era := Int.fdiv y2 400
  let yoe := y2 - era * 400
  let mp := Int.emod (m + 9) 12
  let doy := Int.fdiv (153 * mp + 2) 5 + d - 1
  let doe := yoe * 365 + Int.fdiv yoe 4 - Int.fdiv yoe 100 + doy
  era * 146097 + doe - 719468

/-- Absolute instant of an aware timestamp in seconds.  Python compares
timezone-aware `datetime` values as instants, so all comparisons and
subtractions in the source are mirrored through this function; the chosen
`tzinfo` of a value never changes the instant it denotes. -/
def tsSec (t : Timestamp) : Int :=
  daysFromCivil (t.year : Int) (t.month : Int) (t.day : Int) * 86400
    + (t.hour : Int) * 3600 + (t.minute : Int) * 60 + (t.second : Int)
    - t.offMinutes * 60

/-! ### Title normalization

`YouTubeFeedManager.remove_emojis` (src/utils/manager.py:98-118): strip the
listed emoji code-point ranges, then `.lower().capitalize()`. -/

/-- Membership in the emoji ranges of the Python pattern. -/
def isEmojiChar (c : Char) : Bool :=
  let n := c.toNat
  decide ((0x1F600 ≤ n ∧ n ≤ 0x1F64F) ∨ (0x1F300 ≤ n ∧ n ≤ 0x1F5FF) ∨
    (0x1F680 ≤ n ∧ n ≤ 0x1F6FF) ∨ (0x1F700 ≤ n ∧ n ≤ 0x1F77F) ∨
    (0x1F780 ≤ n ∧ n ≤ 0x1F7FF) ∨ (0x1F800 ≤ n ∧ n ≤ 0x1F8FF) ∨
    (0x1F900 ≤ n ∧ n ≤ 0x1F9FF) ∨ (0x1FA00 ≤ n ∧ n ≤ 0x1FA6F) ∨
    (0x1FA70 ≤ n ∧ n ≤ 0x1FAFF) ∨ (0x2702 ≤ n ∧ n ≤ 0x27B0) ∨
    (0x24C2 ≤ n ∧ n ≤ 0x1F251))

/-- Python `str.lower().capitalize()`: lower-case everything, then
upper-case the first character. -/
def pyCapitalize (cs : List Char) : List Char :=
  match cs.map Char.toLower with
  | [] => []
  | c :: r => Char.toUpper c :: r

/-- `YouTubeFeedManager.remove_emojis`. -/
def remove_emojis (s : String) : String :=
  ⟨pyCapitalize (s.data.filter (fun c => !isEmojiChar c))⟩

/-! ### Data model for `fetch_videos` (src/utils/manager.py:147-285) -/

/-- One feed entry as consumed by `fetch_videos`: `entry.id`, `entry.title`,
`entry.link`, `entry.published` (raw string) and the optional
`entry.author`.  Entries whose `id` attribute is missing behave exactly
like entries whose id has no colon (both are skipped with a warning), so
the id is modelled as always present. -/
structure Entry where
  id : String
  title : String
  link : String
  published : String
  author : Option String
deriving DecidableEq, Repr

/-- A metadata-cache record: the value stored under a video id,
`{duration_seconds, live_broadcast_content, published}`.  The
`liveBroadcastContent` key of the API response may be absent
(`item.get(...)` yields `None`), hence `Option`. -/
structure CacheRecord where
  duration_seconds : Nat
  live_broadcast_content : Option String
  published : String
deriving DecidableEq, Repr

/-- One item of the enrichment (video-details) API response:
`{id, contentDetails.duration, liveBroadcastContent}`. -/
structure ApiItem where
  id : String
  duration : String
  liveBroadcastContent : Option String
deriving DecidableEq, Repr

/-- The video dictionaries returned by `fetch_videos`:
`{title, link, published (parsed), id, author}`. -/
structure Video where
  title : String
  link : String
  published : Timestamp
  id : String
  author : String
deriving DecidableEq, Repr

/-- The metadata cache document: a JSON object keyed by video id. -/
abbrev Cache := String → Option CacheRecord

/-- Assignment `cache[k] = r` on a dictionary. -/
def cacheInsert (c : Cache) (k : String) (r : CacheRecord) : Cache :=
  fun x => if x = k then some r else c x

/-- The configuration read by `fetch_videos`:
`config.get("min_video_length", 2)` (minutes) and the `MAX_SECONDS`
ceiling imported from `utils.settings` (that module is not part of the
sources, so the ceiling is carried as a field rather than a constant). -/
structure Config where
  min_video_length : Nat
  maxSeconds : Nat
deriving DecidableEq, Repr

/-- `":" in entry.id` (written over the character list, which is the
reduction-friendly view of the string). -/
def containsColon (s : String) : Bool :=
  s.data.contains ':'

/-- `entry.id.split(":")[-1]`: the last colon-separated segment — the
suffix after the last colon, or the whole string when it has no colon
(and the empty string after a trailing colon, as in Python). -/
def splitLastColon (s : String) : String :=
  ⟨(s.data.reverse.takeWhile (fun c => !(c == ':'))).reverse⟩

/-- The id under which an entry is cached. -/
def entryKey (e : Entry) : String := splitLastColon e.id

/-- `x in ["live", "upcoming"]` on the liveness value (where a missing
value compares unequal to both strings). -/
def isLiveOrUpcoming (l : Option String) : Bool :=
  match l with
  | some s => s == "live" || s == "upcoming"
  | none => false

/-- The validity check applied to a cached record
(src/utils/manager.py:183-184):
`min_video_length*60 <= duration_seconds <= MAX_SECONDS` and the liveness
not in `["live", "upcoming"]`. -/
def validRec (cfg : Config) (r : CacheRecord) : Bool :=
  decide (cfg.min_video_length * 60 ≤ r.duration_seconds) &&
    decide (r.duration_seconds ≤ cfg.maxSeconds) &&
    !isLiveOrUpcoming r.live_broadcast_content

/-- The video dictionary built for an accepted entry. -/
def mkVideo (e : Entry) (vid : String) (ts : Timestamp) : Video :=
  ⟨remove_emojis e.title, e.link, ts, vid, e.author.getD "Unknown"⟩

/-! ### The `fetch_videos` pipeline

The first loop over `feed.entries` (src/utils/manager.py:168-203) splits
the entries into videos served from cache and ids to enrich, and records
whether any entry was a cache miss (`need_api_request`; note that an entry
whose cached published string fails to parse is appended to the fetch list
but does NOT set the flag).  The second loop (lines 226-269) walks the feed
again, caches each matched response item and then filters it.

Inside the second loop the code reloads the on-disk cache (`cache_data`),
writes the new record into the in-memory `video_cache` only when the id is
absent from `cache_data`, and saves the unchanged `cache_data` back; the
disk therefore keeps its initial contents until the final
`save_cache(video_cache)` after the loop, and the write condition always
tests the initial disk state.  The embedding mirrors this with a write
list applied to the initial cache at the end. -/

/-- First loop: returns (cached videos, ids to fetch, need flag). -/
def phase1 (cfg : Config) (disk : Cache) : List Entry → List Video × List String × Bool
  | [] => ([], [], false)
  | e :: es =>
    let rest := phase1 cfg disk es
    if !(containsColon e.id) then rest
    else
      let vid := entryKey e
      match disk vid with
      | some r =>
        if validRec cfg r then
          match parseTimestamp r.published with
          | some ts => (mkVideo e vid ts :: rest.1, rest.2.1, rest.2.2)
          | none => (rest.1, vid :: rest.2.1, rest.2.2)
        else rest
      | none => (rest.1, vid :: rest.2.1, true)

/-- Second loop: returns (new videos, cache writes in iteration order).
Note this loop extracts the id without the colon check and consults the
initial disk state for the write condition, as the source does. -/
def phase2 (cfg : Config) (disk : Cache) (fetchIds : List String)
    (items : List ApiItem) : List Entry → List Video × List (String × CacheRecord)
  | [] => ([], [])
  | e :: es =>
    let rest := phase2 cfg disk fetchIds items es
    let vid := entryKey e
    if !(fetchIds.contains vid) then rest
    else
      match (items.filter (fun it => it.id == vid)).head? with
      | none => rest
      | some item =>
        let secs := iso_duration_to_seconds item.duration
        let cr : CacheRecord := ⟨secs, item.liveBroadcastContent, e.published⟩
        let writes := if (disk vid).isSome then rest.2 else (vid, cr) :: rest.2
        let vids :=
          if isLiveOrUpcoming item.liveBroadcastContent then rest.1
          else if secs < cfg.min_video_length * 60 || cfg.maxSeconds < secs then rest.1
          else
            match parseTimestamp e.published with
            | none => rest.1
            | some ts => mkVideo e vid ts :: rest.1
        (vids, writes)

/-- Apply cache writes in order (a later write to the same key wins). -/
def applyWrites (c : Cache) (ws : List (String × CacheRecord)) : Cache :=
  ws.foldl (fun acc w => cacheInsert acc w.1 w.2) c

/-- Result of one `fetch_videos` call: the returned list, the resulting
on-disk cache, and how many enrichment API requests were issued. -/
structure FetchResult where
  videos : List Video
  disk : Cache
  apiCalls : Nat

/-- `YouTubeFeedManager.fetch_videos`.  The feed document is the entry
list; the enrichment response is an oracle value (`none` models an
`HttpError`).  An empty feed returns `[]` immediately; if no entry is a
cache miss the cached list is returned without any API call; otherwise one
batched API call is made and its items are cached and filtered. -/
def fetch_videos (cfg : Config) (entries : List Entry)
    (resp : Option (List ApiItem)) (disk : Cache) : FetchResult :=
  if entries.isEmpty then ⟨[], disk, 0⟩
  else
    let p1 := phase1 cfg disk entries
    if !p1.2.2 then ⟨p1.1, disk, 0⟩
    else if p1.2.1.isEmpty then ⟨p1.1, disk, 0⟩
    else
      match resp with
      | none => ⟨p1.1, disk, 1⟩
      | some items =>
        if items.isEmpty then ⟨p1.1, disk, 1⟩
        else
          let p2 := phase2 cfg disk p1.2.1 items entries
          ⟨p1.1 ++ p2.1, applyWrites disk p2.2, 1⟩

/-! ### The per-source feed fetch -/

/-- Outcome of one network attempt to fetch a feed. -/
inductive FetchOutcome where
  | ok (entries : List Entry)
  | timeout
  | err
deriving DecidableEq

/-- Modelled from the spec: `FeedManager.parse_feed`, the per-source feed
fetch with bounded retry, is missing from the sources (only its tests,
`tests/test_manager.py::test_parse_feed_timeout`, and its caller
`Interface.videos_menu` via `parse_feeds` are present; `manager.py` holds
an older revision whose `fetch_feed` has no retry).  Per the spec: a fetch
is retried up to 2 attempts total on timeout; other fetch errors are not
retried and return nil immediately.  The attempt oracle gives the outcome
of each network attempt; the result pairs the fetched document (or `none`)
with the number of attempts made. -/
def parse_feed (attempt : Nat → FetchOutcome) : Option (List Entry) × Nat :=
  match attempt 0 with
  | .ok d => (some d, 1)
  | .err => (none, 1)
  | .timeout =>
    match attempt 1 with
    | .ok d => (some d, 2)
    | .timeout => (none, 2)
    | .err => (none, 2)

/-! ### The caller-level merge (`Interface.videos_menu`)

src/utils/interface.py:226-228 and src/main.py:307-309:

  videos = sorted(videos, key=lambda x: x["published"], reverse=True)
  cutoff_date = datetime.now(videos[0]["published"].tzinfo)
                - timedelta(days=self.manager.config["days_filter"])
  videos = [video for video in videos if video["published"] > cutoff_date]

Python `sorted` is stable also with `reverse=True`; it is modelled by the
(stable) insertion sort on the relation "published instant at least as
late".  `datetime.now(tz)` denotes the same instant whatever `tzinfo` is
passed, so the cutoff instant is `now - days*86400` independently of the
timezone borrowed from the most recent record. -/

/-- Sort key: the published instant. -/
def pubKey (v : Video) : Int := tsSec v.published

/-- Descending order used by the sort: `v` comes no later than `w`. -/
def vidGE (v w : Video) : Prop := pubKey w ≤ pubKey v

instance : DecidableRel vidGE :=
  fun v w => inferInstanceAs (Decidable (pubKey w ≤ pubKey v))

instance : IsTotal Video vidGE :=
  ⟨fun v w => le_total (pubKey w) (pubKey v)⟩

instance : IsTrans Video vidGE :=
  ⟨fun _ _ _ hab hbc => le_trans hbc hab⟩

/-- `sorted(videos, key=lambda x: x["published"], reverse=True)`. -/
def sort_videos (videos : List Video) : List Video :=
  List.insertionSort vidGE videos

/-- The cutoff instant `now - timedelta(days=days_filter)`. -/
def cutoffOf (now : Int) (days : Nat) : Int := now - (days : Int) * 86400

/-- `[video for video in videos if video["published"] > cutoff_date]`. -/
def recency_filter (now : Int) (days : Nat) (videos : List Video) : List Video :=
  videos.filter (fun v => decide (cutoffOf now days < pubKey v))

/-- The cross-source merge: concatenate the per-source lists, and on a
non-empty result sort descending and apply the recency filter (the menu
returns before this point when the concatenation is empty). -/
def merge_videos (now : Int) (days : Nat) (perSource : List (List Video)) : List Video :=
  let videos := perSource.flatten
  if videos.isEmpty then [] else recency_filter now days (sort_videos videos)

/-- The observable outcome of `Interface.videos_menu` up to the point where
the video table is first shown. -/
inductive MenuOutcome where
  | noChannels
  | noVideosAfterFetch
  | noVideosAfterFilter
  | showList (videos : List Video)
deriving DecidableEq

/-- The message shown for each outcome (src/utils/interface.py:224, 231,
301); the list outcome shows the table instead of a message. -/
def menu_message : MenuOutcome → Option String
  | .noChannels => some "Please add at least one channel first!"
  | .noVideosAfterFetch =>
      some "No videos found!\nCheck your subscriptions and internet connection."
  | .noVideosAfterFilter =>
      some "No videos found!\nCheck your filters and internet connection."
  | .showList _ => none

/-- `Interface.videos_menu` (src/utils/interface.py:214-232) up to the
first display: with no subscriptions it asks for a channel; with an empty
concatenation it reports no videos before any cutoff is computed; with a
fully filtered list it reports no videos after the cutoff; otherwise it
shows the merged list.  The per-source lists stand for the results of
`fetch_videos` per channel. -/
def videos_menu (channels : List String) (perSource : List (List Video))
    (now : Int) (days : Nat) : MenuOutcome :=
  if channels.isEmpty then .noChannels
  else
    let videos := perSource.flatten
    if videos.isEmpty then .noVideosAfterFetch
    else
      let vs := recency_filter now days (sort_videos videos)
      if vs.isEmpty then .noVideosAfterFilter
      else .showList vs

/-- Row colouring of the video table (src/utils/interface.py:243-259):
watched videos are dimmed; otherwise the time column is coloured by the
age in whole days.  `delta.days` is the floor of the age in days. -/
def row_colors (watchedIds : List String) (v : Video) (nowSec : Int) : String × String :=
  let deltaDays := Int.fdiv (nowSec - pubKey v) 86400
  if watchedIds.contains v.id then ("dim", "dim")
  else if deltaDays = 0 then ("white", "yellow")
  else if deltaDays = 1 then ("white", "magenta")
  else ("white", "white")

/-- The rendered table: one row per displayed video together with its
colours.  The watched set is consulted only here. -/
def render_rows (nowSec : Int) (watchedIds : List String)
    (videos : List Video) : List (Video × String × String) :=
  videos.map (fun v => (v, row_colors watchedIds v nowSec))

/-! ### `Extractor.get_channel_names` (src/utils/extractor.py:124-158) -/

/-- The channel-name cache document, keyed by channel id. -/
abbrev NameMap := String → Option String

/-- Result of `get_channel_names`: the returned mapping, the updated name
cache, and whether `save_cache` was called. -/
structure NamesResult where
  names : NameMap
  cache : NameMap
  persisted : Bool

/-- `Extractor.get_channel_names`.  `items` is the `(id, title)` list of
the API response (`none` entries of a dict comprehension cannot occur, and
a later item with the same id overrides an earlier one, hence the reverse
lookup).  The steps mirror the source: take the cached names restricted to
the request, return early when nothing remains, otherwise merge the
response, default the rest to "Unknown" and persist the cache. -/
def get_channel_names (cache : NameMap) (items : List (String × String))
    (ids : List String) : NamesResult :=
  let cachedNames : NameMap := fun k => if ids.contains k then cache k else none
  let remaining := ids.filter (fun cid => (cache cid).isNone)
  if remaining.isEmpty then ⟨cachedNames, cache, false⟩
  else
    let newNames : NameMap := fun k => items.reverse.lookup k
    let cache1 : NameMap := fun k =>
      match newNames k with
      | some v => some v
      | none => cache k
    let cached1 : NameMap := fun k =>
      match newNames k with
      | some v => some v
      | none => cachedNames k
    let cached2 : NameMap := fun k =>
      if remaining.contains k && (cached1 k).isNone then some "Unknown" else cached1 k
    let cache2 : NameMap := fun k =>
      if remaining.contains k && (cache1 k).isNone then some "Unknown" else cache1 k
    ⟨cached2, cache2, true⟩

/-! ### Per-entry outcome functions

The two loops of `fetch_videos` act entry by entry; the following
functions give the contribution of a single entry, so that each loop can
be characterised as a `filterMap` over the feed. -/

/-- Contribution of one entry to the cache-served list of the first loop. -/
def hitOutcome (cfg : Config) (disk : Cache) (e : Entry) : Option Video :=
  if !(containsColon e.id) then none
  else
    match disk (entryKey e) with
    | some r =>
      if validRec cfg r then (parseTimestamp r.published).map (mkVideo e (entryKey e))
      else none
    | none => none

/-- Contribution of one entry to the id list batched for enrichment. -/
def fetchIdOutcome (cfg : Config) (disk : Cache) (e : Entry) : Option String :=
  if !(containsColon e.id) then none
  else
    match disk (entryKey e) with
    | some r =>
      if validRec cfg r then
        if (parseTimestamp r.published).isSome then none else some (entryKey e)
      else none
    | none => some (entryKey e)

/-- Contribution of one entry to the newly enriched list of the second
loop (which extracts the id without the colon check). -/
def fetchOutcome (cfg : Config) (fetchIds : List String) (items : List ApiItem)
    (e : Entry) : Option Video :=
  if !(fetchIds.contains (entryKey e)) then none
  else
    match (items.filter (fun it => it.id == entryKey e)).head? with
    | none => none
    | some item =>
      let secs := iso_duration_to_seconds item.duration
      if isLiveOrUpcoming item.liveBroadcastContent then none
      else if secs < cfg.min_video_length * 60 || cfg.maxSeconds < secs then none
      else (parseTimestamp e.published).map (mkVideo e (entryKey e))

/-- Contribution of one entry to the cache-write list of the second loop. -/
def writeOutcome (disk : Cache) (fetchIds : List String) (items : List ApiItem)
    (e : Entry) : Option (String × CacheRecord) :=
  if !(fetchIds.contains (entryKey e)) then none
  else
    match (items.filter (fun it => it.id == entryKey e)).head? with
    | none => none
    | some item =>
      if (disk (entryKey e)).isSome then none
      else
        some (entryKey e,
          ⟨iso_duration_to_seconds item.duration, item.liveBroadcastContent, e.published⟩)

/-- The rows the menu displays for a given watched set ([] when the menu
stops before the table). -/
def displayed_rows (channels : List String) (perSource : List (List Video))
    (now : Int) (days : Nat) (watchedIds : List String) : List (Video × String × String) :=
  match videos_menu channels perSource now days with
  | .showList vs => render_rows now watchedIds vs
  | _ => []

/-! ### Concrete data used by counterexamples and witnesses -/

/-- Configuration with the default 2-minute minimum and a 10-hour ceiling. -/
def exCfg : Config := ⟨2, 36000⟩

/-- An uncached feed entry with id `a`. -/
def exEntryA : Entry := ⟨"yt:video:a", "Title A", "la", "2020-01-02T00:00:00+00:00", some "Au"⟩

/-- A cached feed entry with id `b`. -/
def exEntryB : Entry := ⟨"yt:video:b", "Title B", "lb", "2020-01-01T00:00:00+00:00", some "Bu"⟩

/-- The cache record of `b`: five minutes long, not live, valid date. -/
def exRecB : CacheRecord := ⟨300, some "none", "2020-01-01T00:00:00+00:00"⟩

/-- A cache record whose stored published string does not parse. -/
def exRecBad : CacheRecord := ⟨300, some "none", "garbage"⟩

/-- A cache holding only `b`. -/
def exDisk0 : Cache := fun k => if k = "b" then some exRecB else none

/-- A cache holding only `b`, with the unparseable date record. -/
def exDiskBad : Cache := fun k => if k = "b" then some exRecBad else none

/-- The enrichment response covering `a`: ten minutes, not live. -/
def exItems : List ApiItem := [⟨"a", "PT10M", some "none"⟩]

/-- An enrichment response covering both `a` and `b`. -/
def exItemsAB : List ApiItem := [⟨"a", "PT10M", some "none"⟩, ⟨"b", "PT7M", some "none"⟩]

/-- A video published at the given instant (epoch seconds irrelevant;
only the timestamp matters to the merge). -/
def exVid (name : String) (t : Timestamp) : Video := ⟨name, "l", t, name, "au"⟩

/-! ## Lemmas about the duration codec -/

/-- Every character of the list is an ASCII digit. -/
def allDigits (ds : List Char) : Prop := ∀ c ∈ ds, c.isDigit = true

/-- The list is empty or does not start with a digit (the shape at which a
greedy digit run stops). -/
def headNotDigit : List Char → Prop
  | [] => True
  | c :: _ => c.isDigit = false

/-- A well-formed optional component: absent, or a non-empty digit run. -/
def optDigits : Option (List Char) → Prop
  | none => True
  | some ds => ds ≠ [] ∧ allDigits ds

/-- Concrete rendering of an optional component `(?:(\d+)X)?`. -/
def compStr (marker : Char) : Option (List Char) → List Char
  | none => []
  | some ds => ds ++ [marker]

/-- Numeric value of an optional component (0 when absent, as in the
Python `int(...) if ... else 0`). -/
def optVal : Option (List Char) → Nat
  | none => 0
  | some ds => digitsToNat ds

theorem takeDigits_append {ds rest : List Char} (hds : allDigits ds)
    (hrest : headNotDigit rest) : takeDigits (ds ++ rest) = (ds, rest) := by
  induction ds with
  | nil =>
    cases rest with
    | nil => rfl
    | cons c cs =>
      have hc : c.isDigit = false := hrest
      simp [takeDigits, hc]
  | cons d ds ih =>
    have hd : d.isDigit = true := hds d (by simp)
    have ih' := ih (fun c hc => hds c (by simp [hc]))
    simp [takeDigits, hd, ih']

theorem optComp_nil (marker : Char) : optComp marker [] = (none, []) := rfl

theorem optComp_skip {marker c : Char} {ds rest : List Char} (hds : allDigits ds)
    (hc : c.isDigit = false) (hne : c ≠ marker) :
    optComp marker (ds ++ c :: rest) = (none, ds ++ c :: rest) := by
  have ht : takeDigits (ds ++ c :: rest) = (ds, c :: rest) :=
    takeDigits_append hds (by simpa [headNotDigit] using hc)
  cases ds with
  | nil =>
    simp only [List.nil_append] at ht ⊢
    simp [optComp, ht, hne]
  | cons d ds =>
    simp only [List.cons_append] at ht ⊢
    simp [optComp, ht, hne]

theorem optComp_consume {marker : Char} {ds rest : List Char}
    (hmark : marker.isDigit = false) (hne : ds ≠ []) (hds : allDigits ds) :
    optComp marker (ds ++ marker :: rest) = (some (digitsToNat ds), rest) := by
  have ht : takeDigits (ds ++ marker :: rest) = (ds, marker :: rest) :=
    takeDigits_append hds (by simpa [headNotDigit] using hmark)
  cases ds with
  | nil => exact absurd rfl hne
  | cons d ds =>
    simp only [List.cons_append] at ht ⊢
    simp [optComp, ht]

theorem durationMatch_pt (L : List Char) :
    durationMatch ⟨'P' :: 'T' :: L⟩ =
      some (.timeForm (optComp 'H' L).1 (optComp 'M' (optComp 'H' L).2).1
        (optComp 'S' (optComp 'M' (optComp 'H' L).2).2).1) := by
  simp [durationMatch]

theorem durationMatch_day {d : Char} {ds rest : List Char} (hd : d.isDigit = true)
    (hds : allDigits ds) (hrest : headNotDigit rest) :
    durationMatch ⟨'P' :: d :: (ds ++ rest)⟩ = some (.dayForm (digitsToNat (d :: ds))) := by
  have hdT : ¬(d = 'T') := by
    intro h
    rw [h] at hd
    simp at hd
  have ht : takeDigits (d :: (ds ++ rest)) = (d :: ds, rest) := by
    have := @takeDigits_append (d :: ds) rest
      (fun c hc => by
        rcases List.mem_cons.mp hc with h | h
        · simpa [h] using hd
        · exact hds c h) hrest
    simpa using this
  simp [durationMatch, hdT, ht]

/-- String shapes on which the duration regex matches: the literal `PT`
alternative, or `P` followed by at least one digit. -/
def matchesAlternative (s : String) : Prop :=
  (∃ cs, s.data = 'P' :: 'T' :: cs) ∨ (∃ d cs, s.data = 'P' :: d :: cs ∧ d.isDigit = true)

/-! ## Claim C4 -/

/-- C4, counterexample: on the well-formed ISO-8601 duration `P1DT2H`
(one day and two hours) the parser returns 86400, not the additive
`1*86400 + 2*3600 = 93600`: the day component does not combine with time
components, because the regex day alternative consumes only `P<digits>`
and ignores the rest. -/
theorem c4_counterexample :
    iso_duration_to_seconds "P1DT2H" = 86400 ∧
      iso_duration_to_seconds "P1DT2H" ≠ 1 * 86400 + 2 * 3600 := by
  constructor
  · decide
  · decide

/-- C4, amended: within the `PT` alternative the hour/minute/second
components are independently optional and combine additively as
`h*3600 + m*60 + s` (with the day count 0); the day alternative
`P<digits>[D...]` yields `days*86400` alone, ignoring everything after the
digits, so a day component never combines additively with time
components. -/
theorem c4_additive_within_alternatives :
    ∀ (hc mc sc : Option (List Char)) (d : Char) (dds rest : List Char),
      optDigits hc → optDigits mc → optDigits sc →
      d.isDigit = true → allDigits dds → headNotDigit rest →
      iso_duration_to_seconds
          ⟨'P' :: 'T' :: (compStr 'H' hc ++ (compStr 'M' mc ++ compStr 'S' sc))⟩
        = optVal hc * 3600 + optVal mc * 60 + optVal sc
      ∧ iso_duration_to_seconds ⟨'P' :: d :: (dds ++ rest)⟩
        = digitsToNat (d :: dds) * 86400 := by
  intro hc mc sc d dds rest hhc hmc hsc hd hdds hrest
  constructor
  · have hH : ('H').isDigit = false := by decide
    have hM : ('M').isDigit = false := by decide
    have hS : ('S').isDigit = false := by decide
    have step3 : ∀ T, T = compStr 'S' sc →
        optComp 'S' T = (sc.map digitsToNat, []) := by
      intro T hT
      rcases sc with _ | ss
      · simpa [compStr] using hT ▸ optComp_nil 'S'
      · obtain ⟨hne, hds⟩ := hsc
        have : T = ss ++ 'S' :: [] := by simpa [compStr] using hT
        rw [this]
        simpa using optComp_consume hS hne hds
    have step2 : ∀ T, T = compStr 'M' mc ++ compStr 'S' sc →
        optComp 'M' T = (mc.map digitsToNat, compStr 'S' sc) := by
      intro T hT
      rcases mc with _ | ms
      · -- no minute component: the tail is the second part
        rcases sc with _ | ss
        · simpa [compStr] using hT ▸ optComp_nil 'M'
        · obtain ⟨hne, hds⟩ := hsc
          have : T = ss ++ 'S' :: [] := by simpa [compStr] using hT
          rw [this]
          simpa [compStr] using optComp_skip hds hS (by decide)
      · obtain ⟨hne, hds⟩ := hmc
        have : T = ms ++ 'M' :: compStr 'S' sc := by simp [compStr, hT]
        rw [this]
        simpa using optComp_consume hM hne hds
    have step1 : optComp 'H' (compStr 'H' hc ++ (compStr 'M' mc ++ compStr 'S' sc))
        = (hc.map digitsToNat, compStr 'M' mc ++ compStr 'S' sc) := by
      rcases hc with _ | hs
      · -- no hour component: the tail starts with the minute or second part
        rcases mc with _ | ms
        · rcases sc with _ | ss
          · simpa [compStr] using optComp_nil 'H'
          · obtain ⟨hne, hds⟩ := hsc
            have : compStr 'H' none ++ (compStr 'M' none ++ compStr 'S' (some ss))
                = ss ++ 'S' :: [] := by simp [compStr]
            rw [this]
            simpa [compStr] using optComp_skip hds hS (by decide)
        · obtain ⟨hne, hds⟩ := hmc
          have : compStr 'H' none ++ (compStr 'M' (some ms) ++ compStr 'S' sc)
              = ms ++ 'M' :: compStr 'S' sc := by simp [compStr]
          rw [this]
          simpa [compStr] using optComp_skip hds hM (by decide)
      · obtain ⟨hne, hds⟩ := hhc
        have : compStr 'H' (some hs) ++ (compStr 'M' mc ++ compStr 'S' sc)
            = hs ++ 'H' :: (compStr 'M' mc ++ compStr 'S' sc) := by simp [compStr]
        rw [this]
        simpa using optComp_consume hH hne hds
    have hm := durationMatch_pt (compStr 'H' hc ++ (compStr 'M' mc ++ compStr 'S' sc))
    rw [step1] at hm
    rw [step2 _ rfl] at hm
    rw [step3 _ rfl] at hm
    simp only [iso_duration_to_seconds, hm]
    rcases hc with _ | hs <;> rcases mc with _ | ms <;> rcases sc with _ | ss <;>
      simp [optVal]
  · have hm := durationMatch_day hd hdds hrest
    simp only [iso_duration_to_seconds, hm]

/-- C4, witness: the amended theorem at `PT1H30M` (hour and minute present,
second absent) and `P3D`, giving 5400 and 259200. -/
theorem c4_witness :
    iso_duration_to_seconds "PT1H30M" = 5400 ∧
      iso_duration_to_seconds "P3D" = 259200 := by
  have h := c4_additive_within_alternatives (some ['1']) (some ['3', '0']) none
    '3' [] ['D']
    (by constructor
        · simp
        · intro c hc
          simp at hc
          simp [hc])
    (by constructor
        · simp
        · intro c hc
          simp at hc
          rcases hc with h | h <;> simp [h])
    trivial (by decide) (fun c hc => by simp at hc) (by simp [headNotDigit])
  obtain ⟨h1, h2⟩ := h
  constructor
  · have e1 : ("PT1H30M" : String)
        = ⟨'P' :: 'T' :: (compStr 'H' (some ['1']) ++ (compStr 'M' (some ['3', '0']) ++ compStr 'S' none))⟩ := by
      rfl
    rw [e1, h1]
    decide
  · have e2 : ("P3D" : String) = ⟨'P' :: '3' :: ([] ++ ['D'])⟩ := by rfl
    rw [e2, h2]
    decide

/-! ## Claim C7 -/

/-- C7: the duration parser is a total function (it can raise only via
`int()` on matched groups, which are digit runs); when neither regex
alternative matches, the match is `none` — characterised exactly by the
string not starting with `PT` and not starting with `P` plus a digit —
and the parser reports 0. -/
theorem c7_malformed_input_yields_zero :
    ∀ s : String,
      (durationMatch s = none ↔ ¬matchesAlternative s) ∧
      (¬matchesAlternative s → iso_duration_to_seconds s = 0) := by
  intro s
  have main : durationMatch s = none ↔ ¬matchesAlternative s := by
    obtain ⟨l⟩ := s
    cases l with
    | nil => simp [durationMatch, matchesAlternative]
    | cons c cs =>
      by_cases hP : c = 'P'
      · subst hP
        cases cs with
        | nil =>
          simp [durationMatch, matchesAlternative]
        | cons c2 cs2 =>
          by_cases hT : c2 = 'T'
          · subst hT
            constructor
            · intro h
              simp [durationMatch] at h
            · intro h
              exact absurd (Or.inl ⟨cs2, rfl⟩) h
          · by_cases hdig : c2.isDigit = true
            · constructor
              · intro h
                have ht : (takeDigits (c2 :: cs2)).1 = c2 :: (takeDigits cs2).1 := by
                  simp [takeDigits, hdig]
                simp [durationMatch, hT, ht] at h
              · intro h
                exact absurd (Or.inr ⟨c2, cs2, rfl, hdig⟩) h
            · have hdig' : c2.isDigit = false := by
                simpa using hdig
              have ht : (takeDigits (c2 :: cs2)).1 = [] := by
                simp [takeDigits, hdig']
              constructor
              · intro _
                intro hmat
                rcases hmat with ⟨cs', hcs⟩ | ⟨d, cs', hcs, hd⟩
                · simp at hcs
                  exact hT hcs.1
                · simp at hcs
                  rw [hcs.1] at hdig'
                  rw [hd] at hdig'
                  simp at hdig'
              · intro _
                simp [durationMatch, hT, ht]
      · constructor
        · intro _
          intro hmat
          rcases hmat with ⟨cs', hcs⟩ | ⟨d, cs', hcs, _⟩ <;>
            (simp at hcs; exact hP hcs.1)
        · intro _
          simp [durationMatch, hP]
  refine ⟨main, fun h => ?_⟩
  have hz := main.mpr h
  simp [iso_duration_to_seconds, hz]

/-- C7, witness: the theorem applied at the literal `garbage`, which
matches neither alternative, so the parser returns 0. -/
theorem c7_witness : iso_duration_to_seconds "garbage" = 0 := by
  have h : ¬matchesAlternative "garbage" := by
    intro hmat
    have hdat : ("garbage" : String).data = ['g', 'a', 'r', 'b', 'a', 'g', 'e'] := rfl
    rcases hmat with ⟨cs', hcs⟩ | ⟨d, cs', hcs, _⟩ <;>
      (rw [hdat] at hcs; simp at hcs)
  exact (c7_malformed_input_yields_zero "garbage").2 h

/-! ## Claim C5 -/

/-- C5: per source, a fetch that times out is retried once (2 attempts
total) before degrading to the nil document; a non-timeout error is not
retried and yields nil after a single attempt; a successful attempt is
returned as is; never more than 2 attempts are made; and downstream, a
feed with no entries makes `fetch_videos` return the empty list with no
enrichment call and an unchanged cache rather than failing. -/
theorem c5_timeout_retry_and_degradation :
    ∀ (att : Nat → FetchOutcome) (d : List Entry),
      (att 0 = .ok d → parse_feed att = (some d, 1)) ∧
      (att 0 = .err → parse_feed att = (none, 1)) ∧
      (att 0 = .timeout → att 1 = .ok d → parse_feed att = (some d, 2)) ∧
      (att 0 = .timeout → att 1 = .timeout → parse_feed att = (none, 2)) ∧
      (att 0 = .timeout → att 1 = .err → parse_feed att = (none, 2)) ∧
      (parse_feed att).2 ≤ 2 ∧
      (∀ cfg resp disk, fetch_videos cfg [] resp disk = ⟨[], disk, 0⟩) := by
  intro att d
  refine ⟨?_, ?_, ?_, ?_, ?_, ?_, ?_⟩
  · intro h
    simp [parse_feed, h]
  · intro h
    simp [parse_feed, h]
  · intro h0 h1
    simp [parse_feed, h0, h1]
  · intro h0 h1
    simp [parse_feed, h0, h1]
  · intro h0 h1
    simp [parse_feed, h0, h1]
  · cases h0 : att 0 with
    | ok d2 => simp [parse_feed, h0]
    | err => simp [parse_feed, h0]
    | timeout => cases h1 : att 1 <;> simp [parse_feed, h0, h1]
  · intro cfg resp disk
    rfl

/-- C5, witness: two timeouts give a nil document after exactly 2
attempts, and an empty feed yields the empty video list. -/
theorem c5_witness :
    parse_feed (fun _ => .timeout) = (none, 2) ∧
      fetch_videos exCfg [] none exDisk0 = ⟨[], exDisk0, 0⟩ := by
  have h := c5_timeout_retry_and_degradation (fun _ => .timeout) []
  exact ⟨h.2.2.2.1 rfl rfl, h.2.2.2.2.2.2 exCfg none exDisk0⟩

/-! ## Claim C8 -/

/-- C8, counterexample: the zero-subscription run and the all-sources-empty
run do not produce the same outcome or message — with no channels the menu
prompts to add a channel instead of reporting "No videos found!". -/
theorem c8_counterexample :
    videos_menu [] [[]] 0 7 ≠ videos_menu ["c"] [[]] 0 7 ∧
      menu_message (videos_menu [] [[]] 0 7) ≠ menu_message (videos_menu ["c"] [[]] 0 7) := by
  constructor
  · decide
  · decide

/-- C8, amended: an empty merged list short-circuits before any recency
cutoff is computed and is reported as an empty result, but the three
causes are reported differently: a zero-subscription state prompts to add
a channel, an empty merged list reports "No videos found! Check your
subscriptions...", and a list emptied by the recency filter reports "No
videos found! Check your filters..." (the latter after a cutoff was
computed on the non-empty merged list); the three messages are pairwise
distinct. -/
theorem c8_empty_aggregation_short_circuits :
    (∀ (ps : List (List Video)) (now : Int) (days : Nat),
        videos_menu [] ps now days = .noChannels) ∧
    (∀ (ch : List String) (ps : List (List Video)) (now : Int) (days : Nat),
        ch ≠ [] → ps.flatten = [] →
        videos_menu ch ps now days = .noVideosAfterFetch ∧
        menu_message (videos_menu ch ps now days)
          = some "No videos found!\nCheck your subscriptions and internet connection.") ∧
    menu_message .noChannels ≠ menu_message .noVideosAfterFetch ∧
    menu_message .noVideosAfterFetch ≠ menu_message .noVideosAfterFilter ∧
    menu_message .noChannels ≠ menu_message .noVideosAfterFilter := by
  refine ⟨?_, ?_, by decide, by decide, by decide⟩
  · intro ps now days
    simp [videos_menu]
  · intro ch ps now days hch hflat
    have hch' : ch.isEmpty = false := by
      cases ch with
      | nil => exact absurd rfl hch
      | cons a l => rfl
    have hout : videos_menu ch ps now days = .noVideosAfterFetch := by
      simp [videos_menu, hch', hflat]
    exact ⟨hout, by rw [hout]; rfl⟩

/-- C8, witness: the amended theorem at one channel whose source produced
no videos. -/
theorem c8_witness :
    videos_menu ["c"] [[]] 0 7 = .noVideosAfterFetch ∧
      menu_message (videos_menu ["c"] [[]] 0 7)
        = some "No videos found!\nCheck your subscriptions and internet connection." :=
  (c8_empty_aggregation_short_circuits.2.1 ["c"] [[]] 0 7 (by simp) rfl)

/-! ## Claim C9 -/

/-- C9: the displayed video list is independent of the watched set — two
runs differing only in the watched set render rows with identical video
components in identical order (the pipeline up to the row list never
consults the watched set) — and membership in the watched set only dims
the row colours. -/
theorem c9_watched_set_independence :
    ∀ (ch : List String) (ps : List (List Video)) (now : Int) (days : Nat)
      (w1 w2 : List String),
      (displayed_rows ch ps now days w1).map Prod.fst
        = (displayed_rows ch ps now days w2).map Prod.fst ∧
      (∀ v : Video, w1.contains v.id = true → row_colors w1 v now = ("dim", "dim")) := by
  intro ch ps now days w1 w2
  constructor
  · cases h : videos_menu ch ps now days <;>
      simp [displayed_rows, h, render_rows, List.map_map, Function.comp]
  · intro v hv
    simp only [row_colors]
    rw [hv]
    simp

/-- C9, witness: the theorem at a concrete run, with a watched id dimming
its row. -/
theorem c9_witness :
    (displayed_rows ["c"] [[exVid "a" ⟨2024, 1, 1, 0, 0, 0, 0⟩]]
        (tsSec ⟨2024, 1, 2, 0, 0, 0, 0⟩) 7 ["a"]).map Prod.fst
      = (displayed_rows ["c"] [[exVid "a" ⟨2024, 1, 1, 0, 0, 0, 0⟩]]
          (tsSec ⟨2024, 1, 2, 0, 0, 0, 0⟩) 7 []).map Prod.fst ∧
      row_colors ["a"] (exVid "a" ⟨2024, 1, 1, 0, 0, 0, 0⟩)
          (tsSec ⟨2024, 1, 2, 0, 0, 0, 0⟩) = ("dim", "dim") := by
  have h := c9_watched_set_independence ["c"] [[exVid "a" ⟨2024, 1, 1, 0, 0, 0, 0⟩]]
    (tsSec ⟨2024, 1, 2, 0, 0, 0, 0⟩) 7 ["a"] []
  exact ⟨h.1, h.2 (exVid "a" ⟨2024, 1, 1, 0, 0, 0, 0⟩) (by decide)⟩

/-! ## Claim C6 -/

/-- Stability of the insertion step: restricting to any one publish
instant, inserting an element with that instant puts it in front of the
equal-instant elements already present (which all came later in the
original list), and inserting any other element leaves the class
untouched. -/
theorem orderedInsert_filter_key (a : Video) (l : List Video) (k : Int) :
    (List.orderedInsert vidGE a l).filter (fun v => decide (pubKey v = k))
      = if pubKey a = k then a :: l.filter (fun v => decide (pubKey v = k))
        else l.filter (fun v => decide (pubKey v = k)) := by
  induction l with
  | nil => by_cases h : pubKey a = k <;> simp [List.orderedInsert, h]
  | cons b bs ih =>
    by_cases hab : vidGE a b
    · by_cases ha : pubKey a = k <;>
        simp [List.orderedInsert, hab, List.filter_cons, ha]
    · have hb : ¬(pubKey b = k) ∨ ¬(pubKey a = k) := by
        by_cases ha : pubKey a = k
        · left
          intro hbk
          exact hab (by simp [vidGE, hbk, ha])
        · right
          exact ha
      by_cases ha : pubKey a = k
      · have hbk : ¬(pubKey b = k) := hb.resolve_right (fun h => h ha)
        simp [List.orderedInsert, hab, List.filter_cons, ha, hbk, ih]
      · by_cases hbk : pubKey b = k <;>
          simp [List.orderedInsert, hab, List.filter_cons, ha, hbk, ih]

/-- Stability of the sort: each tie class of the sorted list is the tie
class of the input, in encounter order. -/
theorem sort_videos_filter_key (l : List Video) (k : Int) :
    (sort_videos l).filter (fun v => decide (pubKey v = k))
      = l.filter (fun v => decide (pubKey v = k)) := by
  induction l with
  | nil => rfl
  | cons a l ih =>
    have hins := orderedInsert_filter_key a (sort_videos l) k
    by_cases h : pubKey a = k
    · rw [if_pos h] at hins
      show (List.orderedInsert vidGE a (sort_videos l)).filter _ = _
      rw [hins, ih, List.filter_cons]
      simp [h]
    · rw [if_neg h] at hins
      show (List.orderedInsert vidGE a (sort_videos l)).filter _ = _
      rw [hins, ih, List.filter_cons]
      simp [h]

/-- C6, counterexample: a record published exactly at `now - 7 days` is
not older than the cutoff, yet the merge drops it — the filter keeps only
records strictly newer than the cutoff. -/
theorem c6_counterexample :
    merge_videos (tsSec ⟨2024, 1, 8, 0, 0, 0, 0⟩) 7
        [[exVid "v" ⟨2024, 1, 1, 0, 0, 0, 0⟩]] = [] ∧
      ¬(pubKey (exVid "v" ⟨2024, 1, 1, 0, 0, 0, 0⟩)
          < cutoffOf (tsSec ⟨2024, 1, 8, 0, 0, 0, 0⟩) 7) := by
  constructor
  · decide
  · decide

/-- C6, amended: the cross-source merge concatenates the per-source lists,
sorts by publish instant descending with a stable sort (tie classes keep
encounter order), and keeps exactly the records published strictly later
than `now - recencyWindowDays` — dropping those older than *or exactly at*
the cutoff (the timezone borrowed from the most recent record never moves
the cutoff instant); with a 7-day window a record published 8 days ago is
excluded and one published 6 days 23 hours ago is included. -/
theorem c6_merge_sort_and_recency :
    (∀ (now : Int) (days : Nat) (ps : List (List Video)) (v : Video),
        v ∈ merge_videos now days ps ↔ v ∈ ps.flatten ∧ cutoffOf now days < pubKey v) ∧
    (∀ (now : Int) (days : Nat) (ps : List (List Video)),
        List.Sorted vidGE (merge_videos now days ps)) ∧
    (∀ (now : Int) (days : Nat) (ps : List (List Video)) (k : Int),
        (merge_videos now days ps).filter (fun v => decide (pubKey v = k))
          = (recency_filter now days ps.flatten).filter (fun v => decide (pubKey v = k))) ∧
    merge_videos (tsSec ⟨2024, 1, 9, 0, 0, 0, 0⟩) 7
        [[exVid "v8" ⟨2024, 1, 1, 0, 0, 0, 0⟩]] = [] ∧
    merge_videos (tsSec ⟨2024, 1, 9, 0, 0, 0, 0⟩) 7
        [[exVid "v6" ⟨2024, 1, 2, 1, 0, 0, 0⟩]]
      = [exVid "v6" ⟨2024, 1, 2, 1, 0, 0, 0⟩] := by
  refine ⟨?_, ?_, ?_, by decide, by decide⟩
  · intro now days ps v
    by_cases h : ps.flatten.isEmpty
    · have h' : ps.flatten = [] := List.isEmpty_iff.mp h
      simp [merge_videos, h, h']
    · simp [merge_videos, h, recency_filter, sort_videos, List.mem_filter]
  · intro now days ps
    by_cases h : ps.flatten.isEmpty
    · simp [merge_videos, h]
    · simp only [merge_videos, h, Bool.false_eq_true, if_false]
      exact (List.sorted_insertionSort vidGE ps.flatten).filter _
  · intro now days ps k
    by_cases h : ps.flatten.isEmpty
    · have h' : ps.flatten = [] := List.isEmpty_iff.mp h
      simp [merge_videos, h, recency_filter, h']
    · simp only [merge_videos, h, Bool.false_eq_true, if_false]
      rw [recency_filter, recency_filter, List.filter_filter, List.filter_filter]
      by_cases hc : cutoffOf now days < k
      · have congr1 : ∀ (l : List Video),
            l.filter (fun v => decide (pubKey v = k) && decide (cutoffOf now days < pubKey v))
              = l.filter (fun v => decide (pubKey v = k)) := by
          intro l
          apply List.filter_congr
          intro v _
          by_cases hv : pubKey v = k
          · simp [hv, hc]
          · simp [hv]
        rw [congr1, congr1, sort_videos_filter_key]
      · have congr0 : ∀ (l : List Video),
            l.filter (fun v => decide (pubKey v = k) && decide (cutoffOf now days < pubKey v))
              = [] := by
          intro l
          rw [List.filter_eq_nil_iff]
          intro v _
          by_cases hv : pubKey v = k
          · simp [hv, hc]
          · simp [hv]
        rw [congr0, congr0]

/-! ## Claim C10 -/

/-- A successful association-list lookup names a pair of the list. -/
theorem lookup_mem {l : List (String × String)} {k v : String}
    (h : l.lookup k = some v) : (k, v) ∈ l := by
  induction l with
  | nil => simp [List.lookup] at h
  | cons p t ih =>
    obtain ⟨a, b⟩ := p
    by_cases hk : k = a
    · subst hk
      simp [List.lookup] at h
      simp [h]
    · have hk' : (k == a) = false := by simpa using hk
      simp [List.lookup, hk'] at h
      simp [ih h]

/-- Early-return branch of `get_channel_names`: every requested id is
cached, nothing is fetched or persisted. -/
theorem get_channel_names_early {cache : NameMap} {items : List (String × String)}
    {ids : List String} (h : (ids.filter (fun cid => (cache cid).isNone)).isEmpty = true) :
    get_channel_names cache items ids
      = ⟨fun k => if ids.contains k then cache k else none, cache, false⟩ := by
  simp only [get_channel_names]
  rw [if_pos h]

/-- Main branch of `get_channel_names`: merge the response over the cached
restriction, default the remaining ids to "Unknown", persist. -/
theorem get_channel_names_main {cache : NameMap} {items : List (String × String)}
    {ids : List String} (h : (ids.filter (fun cid => (cache cid).isNone)).isEmpty = false) :
    get_channel_names cache items ids
      = ⟨fun k =>
           if (ids.filter (fun cid => (cache cid).isNone)).contains k
               && (match items.reverse.lookup k with
                   | some v => some v
                   | none => if ids.contains k then cache k else none).isNone
           then some "Unknown"
           else
             match items.reverse.lookup k with
             | some v => some v
             | none => if ids.contains k then cache k else none,
         fun k =>
           if (ids.filter (fun cid => (cache cid).isNone)).contains k
               && (match items.reverse.lookup k with
                   | some v => some v
                   | none => cache k).isNone
           then some "Unknown"
           else
             match items.reverse.lookup k with
             | some v => some v
             | none => cache k,
         true⟩ := by
  simp only [get_channel_names]
  rw [if_neg (by simp [h])]

/-- C10: when the enrichment response contains only requested ids, the
returned map is defined exactly on the requested id list — each id mapped
to its freshly resolved name, its cached name, or "Unknown" when absent
from both — and the persisted name cache agrees with the returned map on
every requested id. -/
theorem c10_get_channel_names_covers_requests :
    ∀ (cache : NameMap) (items : List (String × String)) (ids : List String),
      (∀ p ∈ items, p.1 ∈ ids) →
      ((∀ k, ((get_channel_names cache items ids).names k).isSome ↔ k ∈ ids) ∧
       (∀ k ∈ ids, (get_channel_names cache items ids).cache k
           = (get_channel_names cache items ids).names k) ∧
       (∀ k ∈ ids,
           (get_channel_names cache items ids).names k = items.reverse.lookup k
             ∧ (items.reverse.lookup k).isSome
           ∨ (get_channel_names cache items ids).names k = cache k ∧ (cache k).isSome
           ∨ (get_channel_names cache items ids).names k = some "Unknown"
               ∧ cache k = none ∧ items.reverse.lookup k = none)) := by
  intro cache items ids hitems
  have hlook_mem : ∀ k v, items.reverse.lookup k = some v → k ∈ ids := by
    intro k v h
    have hm := lookup_mem h
    have : (k, v) ∈ items := List.mem_reverse.mp hm
    exact hitems (k, v) this
  by_cases hrem : (ids.filter (fun cid => (cache cid).isNone)).isEmpty
  · have hall : ∀ cid ∈ ids, (cache cid).isSome := by
      intro cid hcid
      have := List.filter_eq_nil_iff.mp (List.isEmpty_iff.mp hrem) cid hcid
      simpa [Option.isNone_iff_eq_none, Option.isSome_iff_ne_none] using this
    rw [get_channel_names_early hrem]
    refine ⟨?_, ?_, ?_⟩
    · intro k
      by_cases hk : k ∈ ids
      · simp [hk, hall k hk]
      · simp [hk]
    · intro k hk
      simp [hk]
    · intro k hk
      right
      left
      exact ⟨by simp [hk], hall k hk⟩
  · have hrem' : (ids.filter (fun cid => (cache cid).isNone)).isEmpty = false := by
      simpa using hrem
    rw [get_channel_names_main hrem']
    refine ⟨?_, ?_, ?_⟩
    · intro k
      constructor
      · intro hsome
        by_cases hcont : (ids.filter (fun cid => (cache cid).isNone)).contains k
        · have : k ∈ ids.filter (fun cid => (cache cid).isNone) := by simpa using hcont
          exact (List.mem_filter.mp this).1
        · have hcont' : (ids.filter (fun cid => (cache cid).isNone)).contains k = false := by
            simpa using hcont
          simp only [hcont', Bool.false_and, Bool.false_eq_true, if_false] at hsome
          match hl : items.reverse.lookup k with
          | some v => exact hlook_mem k v hl
          | none =>
            rw [hl] at hsome
            by_cases hk : k ∈ ids
            · exact hk
            · simp [hk] at hsome
      · intro hk
        by_cases hcache : (cache k).isSome
        · match hl : items.reverse.lookup k with
          | some v => simp [hl]
          | none =>
            obtain ⟨v, hv⟩ := Option.isSome_iff_exists.mp hcache
            simp [hl, hk, hv]
        · have hnone : cache k = none := Option.not_isSome_iff_eq_none.mp hcache
          have hmemf : k ∈ ids.filter (fun cid => (cache cid).isNone) :=
            List.mem_filter.mpr ⟨hk, by simp [hnone]⟩
          have hcont : (ids.filter (fun cid => (cache cid).isNone)).contains k = true := by
            simpa using hmemf
          match hl : items.reverse.lookup k with
          | some v => simp [hl]
          | none => simp [hl, hcont, hk, hnone]
    · intro k hk
      match hl : items.reverse.lookup k with
      | some v => simp [hl]
      | none => simp [hl, hk]
    · intro k hk
      match hl : items.reverse.lookup k with
      | some v =>
        left
        simp [hl]
      | none =>
        by_cases hcache : (cache k).isSome
        · right
          left
          obtain ⟨v, hv⟩ := Option.isSome_iff_exists.mp hcache
          simp [hl, hk, hv]
        · right
          right
          have hnone : cache k = none := Option.not_isSome_iff_eq_none.mp hcache
          have hmemf : k ∈ ids.filter (fun cid => (cache cid).isNone) :=
            List.mem_filter.mpr ⟨hk, by simp [hnone]⟩
          have hcont : (ids.filter (fun cid => (cache cid).isNone)).contains k = true := by
            simpa using hmemf
          simp [hl, hk, hnone, hcont]

/-- C10, witness: one cached id, one freshly resolved id and one unknown
id are all present in the returned map, which agrees with the updated
cache. -/
theorem c10_witness :
    (((get_channel_names (fun k => if k = "c1" then some "Cached" else none)
        [("c2", "Fresh")] ["c1", "c2", "c3"]).names "c3").isSome ↔ "c3" ∈ ["c1", "c2", "c3"]) ∧
      (get_channel_names (fun k => if k = "c1" then some "Cached" else none)
        [("c2", "Fresh")] ["c1", "c2", "c3"]).cache "c2"
        = (get_channel_names (fun k => if k = "c1" then some "Cached" else none)
            [("c2", "Fresh")] ["c1", "c2", "c3"]).names "c2" := by
  have h := c10_get_channel_names_covers_requests
    (fun k => if k = "c1" then some "Cached" else none)
    [("c2", "Fresh")] ["c1", "c2", "c3"]
    (by intro p hp; simp at hp; simp [hp])
  exact ⟨h.1 "c3", h.2.1 "c2" (by simp)⟩

/-! ## Characterisation of the `fetch_videos` loops -/

theorem phase1_videos (cfg : Config) (disk : Cache) :
    ∀ es : List Entry, (phase1 cfg disk es).1 = es.filterMap (hitOutcome cfg disk) := by
  intro es
  induction es with
  | nil => rfl
  | cons e es ih =>
    by_cases hcol : containsColon e.id
    · cases hdisk : disk (entryKey e) with
      | none => simp [phase1, hitOutcome, hcol, hdisk, ih]
      | some r =>
        by_cases hval : validRec cfg r
        · cases hparse : parseTimestamp r.published with
          | none => simp [phase1, hitOutcome, hcol, hdisk, hval, hparse, ih]
          | some ts => simp [phase1, hitOutcome, hcol, hdisk, hval, hparse, ih]
        · simp [phase1, hitOutcome, hcol, hdisk, hval, ih]
    · simp [phase1, hitOutcome, hcol, ih]

theorem phase1_fetch (cfg : Config) (disk : Cache) :
    ∀ es : List Entry, (phase1 cfg disk es).2.1 = es.filterMap (fetchIdOutcome cfg disk) := by
  intro es
  induction es with
  | nil => rfl
  | cons e es ih =>
    by_cases hcol : containsColon e.id
    · cases hdisk : disk (entryKey e) with
      | none => simp [phase1, fetchIdOutcome, hcol, hdisk, ih]
      | some r =>
        by_cases hval : validRec cfg r
        · cases hparse : parseTimestamp r.published with
          | none => simp [phase1, fetchIdOutcome, hcol, hdisk, hval, hparse, ih]
          | some ts => simp [phase1, fetchIdOutcome, hcol, hdisk, hval, hparse, ih]
        · simp [phase1, fetchIdOutcome, hcol, hdisk, hval, ih]
    · simp [phase1, fetchIdOutcome, hcol, ih]

theorem phase1_need (cfg : Config) (disk : Cache) :
    ∀ es : List Entry,
      (phase1 cfg disk es).2.2
        = es.any (fun e => containsColon e.id && (disk (entryKey e)).isNone) := by
  intro es
  induction es with
  | nil => rfl
  | cons e es ih =>
    by_cases hcol : containsColon e.id
    · cases hdisk : disk (entryKey e) with
      | none => simp [phase1, hcol, hdisk, ih]
      | some r =>
        by_cases hval : validRec cfg r
        · cases hparse : parseTimestamp r.published with
          | none => simp [phase1, hcol, hdisk, hval, hparse, ih]
          | some ts => simp [phase1, hcol, hdisk, hval, hparse, ih]
        · simp [phase1, hcol, hdisk, hval, ih]
    · simp [phase1, hcol, ih]

theorem phase2_videos (cfg : Config) (disk : Cache) (fids : List String)
    (items : List ApiItem) :
    ∀ es : List Entry,
      (phase2 cfg disk fids items es).1 = es.filterMap (fetchOutcome cfg fids items) := by
  intro es
  induction es with
  | nil => rfl
  | cons e es ih =>
    by_cases hmem : entryKey e ∈ fids
    · cases hhead : (items.filter (fun it => it.id == entryKey e)).head? with
      | none => simp [phase2, fetchOutcome, hmem, hhead, ih]
      | some item =>
        by_cases hlive : isLiveOrUpcoming item.liveBroadcastContent
        · simp [phase2, fetchOutcome, hmem, hhead, hlive, ih]
        · by_cases hdur : iso_duration_to_seconds item.duration < cfg.min_video_length * 60
              || cfg.maxSeconds < iso_duration_to_seconds item.duration
          · simp [phase2, fetchOutcome, hmem, hhead, hlive, hdur, ih]
          · cases hparse : parseTimestamp e.published with
            | none => simp [phase2, fetchOutcome, hmem, hhead, hlive, hdur, hparse, ih]
            | some ts => simp [phase2, fetchOutcome, hmem, hhead, hlive, hdur, hparse, ih]
    · simp [phase2, fetchOutcome, hmem, ih]

theorem phase2_writes (cfg : Config) (disk : Cache) (fids : List String)
    (items : List ApiItem) :
    ∀ es : List Entry,
      (phase2 cfg disk fids items es).2 = es.filterMap (writeOutcome disk fids items) := by
  intro es
  induction es with
  | nil => rfl
  | cons e es ih =>
    by_cases hmem : entryKey e ∈ fids
    · cases hhead : (items.filter (fun it => it.id == entryKey e)).head? with
      | none => simp [phase2, writeOutcome, hmem, hhead, ih]
      | some item =>
        by_cases hsome : (disk (entryKey e)).isSome
        · simp [phase2, writeOutcome, hmem, hhead, hsome, ih]
        · simp [phase2, writeOutcome, hmem, hhead, hsome, ih]
    · simp [phase2, writeOutcome, hmem, ih]

theorem applyWrites_not_mem :
    ∀ (ws : List (String × CacheRecord)) (c : Cache) (k : String),
      (∀ w ∈ ws, w.1 ≠ k) → applyWrites c ws k = c k := by
  intro ws
  induction ws with
  | nil => intro c k _; rfl
  | cons w ws ih =>
    intro c k h
    have hstep : applyWrites c (w :: ws) = applyWrites (cacheInsert c w.1 w.2) ws := rfl
    rw [hstep, ih _ k (fun w' hw' => h w' (by simp [hw']))]
    have hne : ¬(k = w.1) := fun h' => h w (by simp) h'.symm
    simp [cacheInsert, hne]

theorem applyWrites_mem_nodup :
    ∀ (ws : List (String × CacheRecord)) (c : Cache) (k : String) (r : CacheRecord),
      (ws.map Prod.fst).Nodup → (k, r) ∈ ws → applyWrites c ws k = some r := by
  intro ws
  induction ws with
  | nil => intro c k r _ h; simp at h
  | cons w ws ih =>
    intro c k r hnd hm
    rw [List.map_cons] at hnd
    have hcons := List.nodup_cons.mp hnd
    rcases List.mem_cons.mp hm with heq | hmem
    · subst heq
      have hstep : applyWrites c ((k, r) :: ws) = applyWrites (cacheInsert c k r) ws := rfl
      rw [hstep, applyWrites_not_mem ws _ k ?hne]
      · simp [cacheInsert]
      case hne =>
        intro w' hw' hke
        exact hcons.1 (by
          simpa using List.mem_map.mpr ⟨w', hw', hke⟩)
    · have hstep : applyWrites c (w :: ws) = applyWrites (cacheInsert c w.1 w.2) ws := rfl
      rw [hstep]
      exact ih _ k r hcons.2 hmem

theorem fetchIdOutcome_key {cfg : Config} {disk : Cache} {e : Entry} {x : String}
    (h : fetchIdOutcome cfg disk e = some x) : x = entryKey e := by
  unfold fetchIdOutcome at h
  split at h
  · exact absurd h (by simp)
  · split at h
    · split at h
      · split at h
        · exact absurd h (by simp)
        · simpa using h.symm
      · exact absurd h (by simp)
    · simpa using h.symm

theorem writeOutcome_key {disk : Cache} {fids : List String} {items : List ApiItem}
    {e : Entry} {w : String × CacheRecord}
    (h : writeOutcome disk fids items e = some w) : w.1 = entryKey e := by
  unfold writeOutcome at h
  split at h
  · exact absurd h (by simp)
  · split at h
    · exact absurd h (by simp)
    · split at h
      · exact absurd h (by simp)
      · rw [← Option.some.inj h]

theorem hitOutcome_id {cfg : Config} {disk : Cache} {e : Entry} {v : Video}
    (h : hitOutcome cfg disk e = some v) : v.id = entryKey e := by
  unfold hitOutcome at h
  split at h
  · exact absurd h (by simp)
  · split at h
    · split at h
      · rcases Option.map_eq_some'.mp h with ⟨ts, _, hv⟩
        rw [← hv]
        rfl
      · exact absurd h (by simp)
    · exact absurd h (by simp)

theorem writes_keys_nodup {disk : Cache} {fids : List String} {items : List ApiItem}
    {es : List Entry} (hnd : (es.map entryKey).Nodup) :
    ((es.filterMap (writeOutcome disk fids items)).map Prod.fst).Nodup := by
  induction es with
  | nil => simp
  | cons e es ih =>
    rw [List.map_cons] at hnd
    have hnd' := List.nodup_cons.mp hnd
    cases hw : writeOutcome disk fids items e with
    | none => simpa [hw] using ih hnd'.2
    | some w =>
      rw [List.filterMap_cons_some hw, List.map_cons, List.nodup_cons]
      refine ⟨?_, ih hnd'.2⟩
      intro hmem
      rcases List.mem_map.mp hmem with ⟨w', hw', hkey⟩
      rcases List.mem_filterMap.mp hw' with ⟨e', he', hwe'⟩
      have h1 : w'.1 = entryKey e' := writeOutcome_key hwe'
      have h2 : w.1 = entryKey e := writeOutcome_key hw
      exact hnd'.1 (by
        rw [← h2, ← hkey, h1]
        exact List.mem_map.mpr ⟨e', he', rfl⟩)

theorem fetchIdOutcome_of_miss {cfg : Config} {disk : Cache} {e : Entry}
    (hcol : containsColon e.id = true) (hmiss : disk (entryKey e) = none) :
    fetchIdOutcome cfg disk e = some (entryKey e) := by
  simp [fetchIdOutcome, hcol, hmiss]

theorem fetchIdOutcome_of_hit_ok {cfg : Config} {disk : Cache} {e : Entry} {r : CacheRecord}
    (hr : disk (entryKey e) = some r)
    (hparse : (parseTimestamp r.published).isSome = true) :
    fetchIdOutcome cfg disk e = none := by
  by_cases hcol : containsColon e.id
  · by_cases hval : validRec cfg r <;> simp [fetchIdOutcome, hcol, hr, hval, hparse]
  · simp [fetchIdOutcome, hcol]

theorem writeOutcome_of_hit {disk : Cache} {fids : List String} {items : List ApiItem}
    {e : Entry} (h : (disk (entryKey e)).isSome = true) :
    writeOutcome disk fids items e = none := by
  unfold writeOutcome
  split
  · rfl
  · split
    · rfl
    · simp [h]

/-- The main path of `fetch_videos`: some entry is a cache miss and the
response is a non-empty item list, so one API call is made, the two loop
results are concatenated and the write list is applied to the cache. -/
theorem fetch_videos_main {cfg : Config} {entries : List Entry} {items : List ApiItem}
    {disk : Cache} (hneed : (phase1 cfg disk entries).2.2 = true) (hitems : items ≠ []) :
    fetch_videos cfg entries (some items) disk
      = ⟨(phase1 cfg disk entries).1
            ++ (phase2 cfg disk (phase1 cfg disk entries).2.1 items entries).1,
         applyWrites disk (phase2 cfg disk (phase1 cfg disk entries).2.1 items entries).2,
         1⟩ := by
  have hne : entries ≠ [] := by
    intro h
    rw [h] at hneed
    simp [phase1] at hneed
  have hfids : (phase1 cfg disk entries).2.1 ≠ [] := by
    rw [phase1_need] at hneed
    rcases List.any_eq_true.mp hneed with ⟨e, he, hpe⟩
    have hsplit : containsColon e.id = true ∧ (disk (entryKey e)).isNone = true := by
      simpa using hpe
    obtain ⟨hcol, hmiss⟩ := hsplit
    have hmem : entryKey e ∈ (phase1 cfg disk entries).2.1 := by
      rw [phase1_fetch]
      exact List.mem_filterMap.mpr
        ⟨e, he, fetchIdOutcome_of_miss hcol (Option.isNone_iff_eq_none.mp hmiss)⟩
    intro hnil
    rw [hnil] at hmem
    simp at hmem
  have h1 : entries.isEmpty = false := by
    cases entries with
    | nil => exact absurd rfl hne
    | cons a l => rfl
  have h2 : (phase1 cfg disk entries).2.1.isEmpty = false := by
    cases hl : (phase1 cfg disk entries).2.1 with
    | nil => exact absurd hl hfids
    | cons a l => rfl
  have h3 : items.isEmpty = false := by
    cases items with
    | nil => exact absurd rfl hitems
    | cons a l => rfl
  simp [fetch_videos, h1, h2, h3, hneed]

/-- The cache-only path of `fetch_videos`: no entry is a cache miss, so no
API call is made and the cache is untouched. -/
theorem fetch_videos_no_need {cfg : Config} {entries : List Entry}
    {resp : Option (List ApiItem)} {disk : Cache} (hne : entries ≠ [])
    (hneed : (phase1 cfg disk entries).2.2 = false) :
    fetch_videos cfg entries resp disk = ⟨(phase1 cfg disk entries).1, disk, 0⟩ := by
  have h1 : entries.isEmpty = false := by
    cases entries with
    | nil => exact absurd rfl hne
    | cons a l => rfl
  simp [fetch_videos, h1, hneed]

/-- Whatever the inputs, the cache after `fetch_videos` is either untouched
or the initial cache with the second-loop writes applied. -/
theorem fetch_videos_disk_eq {cfg : Config} {entries : List Entry}
    {resp : Option (List ApiItem)} {disk : Cache} :
    (fetch_videos cfg entries resp disk).disk = disk ∨
    (∃ items, resp = some items ∧
      (fetch_videos cfg entries resp disk).disk
        = applyWrites disk (entries.filterMap
            (writeOutcome disk (entries.filterMap (fetchIdOutcome cfg disk)) items))) := by
  by_cases h0 : entries = []
  · subst h0
    left
    rfl
  · by_cases hneed : (phase1 cfg disk entries).2.2
    · cases resp with
      | none =>
        left
        have h1 : entries.isEmpty = false := by
          cases entries with
          | nil => exact absurd rfl h0
          | cons a l => rfl
        simp only [fetch_videos, h1, hneed, Bool.false_eq_true, if_false, Bool.not_true]
        split <;> rfl
      | some items =>
        by_cases hni : items = []
        · subst hni
          left
          have h1 : entries.isEmpty = false := by
            cases entries with
            | nil => exact absurd rfl h0
            | cons a l => rfl
          simp only [fetch_videos, h1, hneed, Bool.false_eq_true, if_false, Bool.not_true]
          split
          · rfl
          · split
            · rfl
            · rename_i hfalse
              exact absurd rfl hfalse
        · right
          refine ⟨items, rfl, ?_⟩
          rw [fetch_videos_main hneed hni]
          rw [← phase1_fetch, ← phase2_writes]
    · left
      rw [fetch_videos_no_need h0 (by simpa using hneed)]

/-! ## Claim C3 -/

/-- C3, counterexample: a cached record that passes the duration and
liveness check but whose stored published string does not parse is NOT
accepted from cache — it is scheduled for re-enrichment instead — so the
claimed "accepted iff duration in range and liveness not live/upcoming"
fails in the left-to-right direction of its if-and-only-if. -/
theorem c3_counterexample :
    validRec exCfg exRecBad = true ∧
      (phase1 exCfg exDiskBad [exEntryB]).1 = [] ∧
      (phase1 exCfg exDiskBad [exEntryB]).2.1 = ["b"] := by
  refine ⟨by decide, by decide, by decide⟩

/-- C3, amended: a cached record is accepted without re-enrichment iff
`minDurationSeconds ≤ durationSeconds ≤ maxDurationSeconds`, its liveness
is neither live nor upcoming, AND its stored published timestamp parses;
a record failing this is skipped for the pass but never removed from the
cache, so a later pass under a looser filter can accept it. -/
theorem c3_cached_validity_and_retention :
    ∀ (cfg : Config) (entries : List Entry) (disk : Cache) (e : Entry) (cr : CacheRecord),
      (∀ e2 ∈ entries, containsColon e2.id = true) →
      (entries.map entryKey).Nodup →
      e ∈ entries →
      disk (entryKey e) = some cr →
      ((∃ ts, parseTimestamp cr.published = some ts
          ∧ mkVideo e (entryKey e) ts ∈ (phase1 cfg disk entries).1)
        ↔ validRec cfg cr = true ∧ (parseTimestamp cr.published).isSome = true) ∧
      (∀ resp, (fetch_videos cfg entries resp disk).disk (entryKey e) = some cr) ∧
      (∀ (cfg2 : Config) (ts : Timestamp) (resp : Option (List ApiItem)),
          validRec cfg2 cr = true → parseTimestamp cr.published = some ts →
          mkVideo e (entryKey e) ts
            ∈ (phase1 cfg2 (fetch_videos cfg entries resp disk).disk entries).1) := by
  intro cfg entries disk e cr hcolon hnodup he hcr
  have hinj := List.inj_on_of_nodup_map hnodup
  have hdisk2 : ∀ resp, (fetch_videos cfg entries resp disk).disk (entryKey e) = some cr := by
    intro resp
    rcases @fetch_videos_disk_eq cfg entries resp disk with h | ⟨items, _, h⟩
    · rw [h, hcr]
    · rw [h, applyWrites_not_mem _ _ _ ?hall, hcr]
      case hall =>
        intro w hw hkey
        rcases List.mem_filterMap.mp hw with ⟨e', he', hwe⟩
        have hk' : w.1 = entryKey e' := writeOutcome_key hwe
        have : e' = e := hinj he' he (by rw [← hk', hkey])
        rw [this] at hwe
        have hsome : (disk (entryKey e)).isSome = true := by
          rw [hcr]
          rfl
        rw [writeOutcome_of_hit hsome] at hwe
        exact Option.noConfusion hwe
  have hiff : (∃ ts, parseTimestamp cr.published = some ts
      ∧ mkVideo e (entryKey e) ts ∈ (phase1 cfg disk entries).1)
      ↔ validRec cfg cr = true ∧ (parseTimestamp cr.published).isSome = true := by
    constructor
    · rintro ⟨ts, hts, hmem⟩
      rw [phase1_videos] at hmem
      rcases List.mem_filterMap.mp hmem with ⟨e', he', hoe⟩
      have hid : (mkVideo e (entryKey e) ts).id = entryKey e' := hitOutcome_id hoe
      have heq : e' = e := hinj he' he (by rw [← hid]; rfl)
      rw [heq] at hoe
      unfold hitOutcome at hoe
      rw [hcolon e he] at hoe
      simp only [Bool.not_true, Bool.false_eq_true, if_false, hcr] at hoe
      by_cases hval : validRec cfg cr
      · refine ⟨hval, ?_⟩
        rw [if_pos hval] at hoe
        rcases Option.map_eq_some'.mp hoe with ⟨ts', hts', _⟩
        simp [hts']
      · rw [if_neg hval] at hoe
        exact absurd hoe (by simp)
    · rintro ⟨hval, hsome⟩
      obtain ⟨ts, hts⟩ := Option.isSome_iff_exists.mp hsome
      refine ⟨ts, hts, ?_⟩
      rw [phase1_videos]
      refine List.mem_filterMap.mpr ⟨e, he, ?_⟩
      simp [hitOutcome, hcolon e he, hcr, hval, hts]
  refine ⟨hiff, hdisk2, ?_⟩
  intro cfg2 ts resp hval2 hts
  rw [phase1_videos]
  refine List.mem_filterMap.mpr ⟨e, he, ?_⟩
  simp [hitOutcome, hcolon e he, hdisk2 resp, hval2, hts]

/-- C3, witness: a cached valid record (five minutes, not live, parseable
date) is accepted from cache and retained across a fetch that makes no
API call. -/
theorem c3_witness :
    (∃ ts, parseTimestamp exRecB.published = some ts
        ∧ mkVideo exEntryB (entryKey exEntryB) ts ∈ (phase1 exCfg exDisk0 [exEntryB]).1) ∧
      (fetch_videos exCfg [exEntryB] none exDisk0).disk (entryKey exEntryB) = some exRecB := by
  have h := c3_cached_validity_and_retention exCfg [exEntryB] exDisk0 exEntryB exRecB
    (by decide) (by decide) (by decide) (by decide)
  exact ⟨h.1.mpr ⟨by decide, by decide⟩, h.2.1 none⟩

/-! ## Claim C1 -/

/-- C1, counterexample: an enrichment response item whose id is already
cached is processed without its computed record being written.  Here `b`
sits in the cache with an unparseable published string (so it is
re-enriched together with the cache miss `a`), the response covers both
ids and `b` passes every filter (its video is returned, length 2 shows it
was processed), yet after the call the cache still holds the old record
for `b`, not the computed `(420, none-live, feed published)` record — so
the claimed unconditional write (and the cache-served later pass for the
item) fails. -/
theorem c1_counterexample :
    (fetch_videos exCfg [exEntryB, exEntryA] (some exItemsAB) exDiskBad).disk "b"
        = some exRecBad ∧
      exRecBad ≠ ⟨iso_duration_to_seconds "PT7M", some "none", exEntryB.published⟩ ∧
      (fetch_videos exCfg [exEntryB, exEntryA] (some exItemsAB) exDiskBad).videos.length = 2 := by
  refine ⟨by decide, by decide, by decide⟩

/-- C1, amended: for every enrichment response item whose externalId is a
cache miss, the computed record `(durationSeconds, liveness,
publishedAt-raw)` is written to the cache unconditionally — also when the
item is excluded by the duration or liveness filter — and a later pass
whose filter accepts the record serves the item from cache, requesting no
enrichment for it.  (An id re-enriched because its already-cached record
has an unparseable published string keeps its old record instead.) -/
theorem c1_cache_write_unconditional_for_misses :
    ∀ (cfg : Config) (entries : List Entry) (items : List ApiItem) (disk : Cache)
      (e : Entry) (item : ApiItem),
      (∀ e2 ∈ entries, containsColon e2.id = true) →
      (entries.map entryKey).Nodup →
      e ∈ entries →
      disk (entryKey e) = none →
      (items.filter (fun it => it.id == entryKey e)).head? = some item →
      ((fetch_videos cfg entries (some items) disk).disk (entryKey e)
          = some ⟨iso_duration_to_seconds item.duration, item.liveBroadcastContent,
              e.published⟩
        ∧ ∀ (cfg2 : Config) (ts : Timestamp),
            validRec cfg2 ⟨iso_duration_to_seconds item.duration,
              item.liveBroadcastContent, e.published⟩ = true →
            parseTimestamp e.published = some ts →
            mkVideo e (entryKey e) ts
                ∈ (phase1 cfg2 (fetch_videos cfg entries (some items) disk).disk entries).1
              ∧ ∀ x ∈ (phase1 cfg2 (fetch_videos cfg entries (some items) disk).disk
                  entries).2.1, x ≠ entryKey e) := by
  intro cfg entries items disk e item hcolon hnodup he hmiss hitem
  have hinj := List.inj_on_of_nodup_map hnodup
  have hne_items : items ≠ [] := by
    intro h
    rw [h] at hitem
    simp at hitem
  have hneed : (phase1 cfg disk entries).2.2 = true := by
    rw [phase1_need]
    exact List.any_eq_true.mpr ⟨e, he, by simp [hcolon e he, hmiss]⟩
  have hkey_mem : entryKey e ∈ (phase1 cfg disk entries).2.1 := by
    rw [phase1_fetch]
    exact List.mem_filterMap.mpr ⟨e, he, fetchIdOutcome_of_miss (hcolon e he) hmiss⟩
  have hwo : writeOutcome disk (phase1 cfg disk entries).2.1 items e
      = some (entryKey e,
          ⟨iso_duration_to_seconds item.duration, item.liveBroadcastContent, e.published⟩) := by
    simp [writeOutcome, hkey_mem, hitem, hmiss]
  have hdisk : (fetch_videos cfg entries (some items) disk).disk (entryKey e)
      = some ⟨iso_duration_to_seconds item.duration, item.liveBroadcastContent,
          e.published⟩ := by
    rw [fetch_videos_main hneed hne_items]
    show applyWrites disk _ (entryKey e) = _
    rw [phase2_writes]
    refine applyWrites_mem_nodup _ _ _ _ (writes_keys_nodup hnodup) ?_
    exact List.mem_filterMap.mpr ⟨e, he, hwo⟩
  refine ⟨hdisk, ?_⟩
  intro cfg2 ts hval2 hts
  constructor
  · rw [phase1_videos]
    refine List.mem_filterMap.mpr ⟨e, he, ?_⟩
    simp [hitOutcome, hcolon e he, hdisk, hval2, hts]
  · intro x hx hxe
    rw [phase1_fetch] at hx
    rcases List.mem_filterMap.mp hx with ⟨e', he', hfe⟩
    have hk' : x = entryKey e' := fetchIdOutcome_key hfe
    have heq : e' = e := hinj he' he (by rw [← hk', hxe])
    rw [heq] at hfe
    rw [fetchIdOutcome_of_hit_ok hdisk (by simp [hts])] at hfe
    exact Option.noConfusion hfe

/-- C1, witness: the amended theorem on the single cache miss `a` with a
ten-minute non-live response item; the record lands in the cache and a
later pass with the same (accepting) filter serves it from cache with no
enrichment request for it. -/
theorem c1_witness :
    (fetch_videos exCfg [exEntryA] (some exItems) (fun _ => none)).disk (entryKey exEntryA)
        = some ⟨iso_duration_to_seconds "PT10M", some "none", exEntryA.published⟩ ∧
      ∀ x ∈ (phase1 exCfg
          (fetch_videos exCfg [exEntryA] (some exItems) (fun _ => none)).disk
          [exEntryA]).2.1, x ≠ entryKey exEntryA := by
  have h := c1_cache_write_unconditional_for_misses exCfg [exEntryA] exItems
    (fun _ => none) exEntryA ⟨"a", "PT10M", some "none"⟩
    (by decide) (by decide) (by decide) rfl (by decide)
  have h2 := h.2 exCfg (Option.get (parseTimestamp exEntryA.published) (by decide))
    (by decide) (by decide)
  exact ⟨h.1, h2.2⟩

/-! ## Claim C2 -/

theorem filterMap_filter_eq {α β : Type} (p : α → Bool) (f : α → Option β) :
    ∀ l : List α, (∀ a ∈ l, p a = false → f a = none) →
      (l.filter p).filterMap f = l.filterMap f := by
  intro l
  induction l with
  | nil => intro _; rfl
  | cons a l ih =>
    intro h
    by_cases hp : p a
    · rw [List.filter_cons_of_pos hp]
      cases hf : f a with
      | none => rw [List.filterMap_cons_none hf, List.filterMap_cons_none hf,
          ih (fun x hx => h x (by simp [hx]))]
      | some b => rw [List.filterMap_cons_some hf, List.filterMap_cons_some hf,
          ih (fun x hx => h x (by simp [hx]))]
    · have hp' : p a = false := by simpa using hp
      rw [List.filter_cons_of_neg (by simp [hp']),
        List.filterMap_cons_none (h a (by simp) hp'),
        ih (fun x hx => h x (by simp [hx]))]

theorem filterMap_perm_split {α β : Type} (p : α → Bool) (g : α → Option β) (l : List α) :
    (l.filterMap g).Perm
      ((l.filter p).filterMap g ++ (l.filter (fun a => !p a)).filterMap g) := by
  have hperm := List.filter_append_perm p l
  have h2 := hperm.filterMap g
  rw [List.filterMap_append] at h2
  exact h2.symm

theorem hitOutcome_of_miss {cfg : Config} {disk : Cache} {e : Entry}
    (h : disk (entryKey e) = none) : hitOutcome cfg disk e = none := by
  by_cases hcol : containsColon e.id <;> simp [hitOutcome, hcol, h]

theorem fetchOutcome_of_not_mem {cfg : Config} {fids : List String} {items : List ApiItem}
    {e : Entry} (h : ¬(entryKey e ∈ fids)) : fetchOutcome cfg fids items e = none := by
  simp [fetchOutcome, h]

/-- C2, counterexample: two successive calls on the same feed and filter
configuration return the records in different orders when the initial
cache holds a later feed entry but not an earlier one — the first call
lists cache-served records before newly enriched ones, the second lists
everything in feed order. -/
theorem c2_counterexample :
    (fetch_videos exCfg [exEntryA, exEntryB] (some exItems)
        (fetch_videos exCfg [exEntryA, exEntryB] (some exItems) exDisk0).disk).videos
      ≠ (fetch_videos exCfg [exEntryA, exEntryB] (some exItems) exDisk0).videos := by
  decide

/-- C2, amended: under well-formed ids (each entry id has a colon,
extracted ids pairwise distinct), parseable cached dates, and an
enrichment response covering every cache miss, a second `fetch_videos`
call with the same feed and filter configuration issues zero enrichment
calls and returns the same records as the first call up to order (the
first call lists cache-served records before newly enriched ones); when
no feed entry was cached initially — e.g. on a cold cache — the two lists
are identical. -/
theorem c2_second_call_idempotent :
    ∀ (cfg : Config) (entries : List Entry) (items : List ApiItem) (disk : Cache),
      (∀ e ∈ entries, containsColon e.id = true) →
      (entries.map entryKey).Nodup →
      (∀ e ∈ entries, ∀ r, disk (entryKey e) = some r →
          (parseTimestamp r.published).isSome = true) →
      (∀ e ∈ entries, disk (entryKey e) = none → ∃ it ∈ items, it.id = entryKey e) →
      ∀ resp2 : Option (List ApiItem),
        (fetch_videos cfg entries resp2
            (fetch_videos cfg entries (some items) disk).disk).apiCalls = 0 ∧
        (fetch_videos cfg entries resp2
            (fetch_videos cfg entries (some items) disk).disk).videos.Perm
          (fetch_videos cfg entries (some items) disk).videos ∧
        ((∀ e ∈ entries, disk (entryKey e) = none) →
          (fetch_videos cfg entries resp2
              (fetch_videos cfg entries (some items) disk).disk).videos
            = (fetch_videos cfg entries (some items) disk).videos) := by
  intro cfg entries items disk H1 H2 H3 H4 resp2
  by_cases hnil : entries = []
  · subst hnil
    exact ⟨rfl, List.Perm.refl _, fun _ => rfl⟩
  have hinj := List.inj_on_of_nodup_map H2
  by_cases hneed : (phase1 cfg disk entries).2.2 = true
  · -- the first call performs the enrichment pass
    rcases List.any_eq_true.mp ((phase1_need cfg disk entries) ▸ hneed) with ⟨em, hem, hpm⟩
    have hpm' : containsColon em.id = true ∧ (disk (entryKey em)).isNone = true := by
      simpa using hpm
    have hne_items : items ≠ [] := by
      rcases H4 em hem (Option.isNone_iff_eq_none.mp hpm'.2) with ⟨it, hit, _⟩
      intro h
      rw [h] at hit
      simp at hit
    have hmain := fetch_videos_main hneed hne_items
    have hdisk1 : (fetch_videos cfg entries (some items) disk).disk
        = applyWrites disk (entries.filterMap
            (writeOutcome disk (phase1 cfg disk entries).2.1 items)) := by
      rw [hmain]
      show applyWrites disk (phase2 cfg disk (phase1 cfg disk entries).2.1 items entries).2 = _
      rw [phase2_writes]
    have hdisk1_hit : ∀ e ∈ entries, ∀ r, disk (entryKey e) = some r →
        (fetch_videos cfg entries (some items) disk).disk (entryKey e) = some r := by
      intro e he r hr
      rw [hdisk1, applyWrites_not_mem _ _ _ ?hall, hr]
      case hall =>
        intro w hw hkey
        rcases List.mem_filterMap.mp hw with ⟨e', he', hwe⟩
        have hk' : w.1 = entryKey e' := writeOutcome_key hwe
        have heq : e' = e := hinj he' he (by rw [← hk', hkey])
        rw [heq] at hwe
        rw [writeOutcome_of_hit (by rw [hr]; rfl)] at hwe
        exact Option.noConfusion hwe
    have hkey_mem : ∀ e ∈ entries, disk (entryKey e) = none →
        entryKey e ∈ (phase1 cfg disk entries).2.1 := by
      intro e he hm
      rw [phase1_fetch]
      exact List.mem_filterMap.mpr ⟨e, he, fetchIdOutcome_of_miss (H1 e he) hm⟩
    have hdisk1_miss : ∀ e ∈ entries, disk (entryKey e) = none →
        ∃ item, (items.filter (fun it => it.id == entryKey e)).head? = some item ∧
          (fetch_videos cfg entries (some items) disk).disk (entryKey e)
            = some ⟨iso_duration_to_seconds item.duration, item.liveBroadcastContent,
                e.published⟩ := by
      intro e he hm
      rcases H4 e he hm with ⟨it, hit, hitid⟩
      have hfil : it ∈ items.filter (fun x => x.id == entryKey e) :=
        List.mem_filter.mpr ⟨hit, by simp [hitid]⟩
      obtain ⟨item, hhead⟩ : ∃ item,
          (items.filter (fun x => x.id == entryKey e)).head? = some item := by
        cases hfl : items.filter (fun x => x.id == entryKey e) with
        | nil =>
          rw [hfl] at hfil
          simp at hfil
        | cons a t => exact ⟨a, rfl⟩
      refine ⟨item, hhead, ?_⟩
      rw [hdisk1]
      refine applyWrites_mem_nodup _ _ _ _ (writes_keys_nodup H2) ?_
      refine List.mem_filterMap.mpr ⟨e, he, ?_⟩
      simp [writeOutcome, hkey_mem e he hm, hhead, hm]
    have hdisk1_some : ∀ e ∈ entries,
        ((fetch_videos cfg entries (some items) disk).disk (entryKey e)).isSome = true := by
      intro e he
      cases hd : disk (entryKey e) with
      | some r => rw [hdisk1_hit e he r hd]; rfl
      | none =>
        rcases hdisk1_miss e he hd with ⟨item, _, h⟩
        rw [h]
        rfl
    have hneed2 : (phase1 cfg (fetch_videos cfg entries (some items) disk).disk
        entries).2.2 = false := by
      rw [phase1_need]
      cases hb : entries.any (fun e => containsColon e.id
          && ((fetch_videos cfg entries (some items) disk).disk (entryKey e)).isNone) with
      | false => rfl
      | true =>
        rcases List.any_eq_true.mp hb with ⟨e, he, hp⟩
        have hpab : containsColon e.id = true ∧
            ((fetch_videos cfg entries (some items) disk).disk (entryKey e)).isNone
              = true := by simpa using hp
        have hp2 := hpab.2
        rw [Option.isNone_iff_eq_none] at hp2
        have := hdisk1_some e he
        rw [hp2] at this
        exact Bool.noConfusion this
    have hcall2 := @fetch_videos_no_need cfg entries resp2 _ hnil hneed2
    -- the second call serves everything from cache
    have hcall2_videos : (fetch_videos cfg entries resp2
        (fetch_videos cfg entries (some items) disk).disk).videos
        = entries.filterMap
            (hitOutcome cfg (fetch_videos cfg entries (some items) disk).disk) := by
      rw [hcall2]
      exact phase1_videos _ _ _
    have hcall1_videos : (fetch_videos cfg entries (some items) disk).videos
        = entries.filterMap (hitOutcome cfg disk)
          ++ entries.filterMap (fetchOutcome cfg (phase1 cfg disk entries).2.1 items) := by
      rw [hmain]
      show (phase1 cfg disk entries).1
          ++ (phase2 cfg disk (phase1 cfg disk entries).2.1 items entries).1 = _
      rw [phase1_videos, phase2_videos]
    -- pointwise agreement of the second call with the first call
    have hnot_fids_hit : ∀ e ∈ entries, ∀ r, disk (entryKey e) = some r →
        ¬(entryKey e ∈ (phase1 cfg disk entries).2.1) := by
      intro e he r hr hmem
      rw [phase1_fetch] at hmem
      rcases List.mem_filterMap.mp hmem with ⟨e', he', hfe⟩
      have hk' : entryKey e = entryKey e' := fetchIdOutcome_key hfe
      have heq : e' = e := hinj he' he hk'.symm
      rw [heq] at hfe
      rw [fetchIdOutcome_of_hit_ok hr (H3 e he r hr)] at hfe
      exact Option.noConfusion hfe
    have hpoint_hit : ∀ e ∈ entries, ∀ r, disk (entryKey e) = some r →
        hitOutcome cfg (fetch_videos cfg entries (some items) disk).disk e
          = hitOutcome cfg disk e := by
      intro e he r hr
      simp [hitOutcome, hdisk1_hit e he r hr, hr]
    have hpoint_miss : ∀ e ∈ entries, disk (entryKey e) = none →
        hitOutcome cfg (fetch_videos cfg entries (some items) disk).disk e
          = fetchOutcome cfg (phase1 cfg disk entries).2.1 items e := by
      intro e he hm
      rcases hdisk1_miss e he hm with ⟨item, hhead, hd1⟩
      by_cases hlive : isLiveOrUpcoming item.liveBroadcastContent
      · simp [hitOutcome, fetchOutcome, H1 e he, hd1, hkey_mem e he hm, hhead, hlive,
          validRec]
      · by_cases hlow : iso_duration_to_seconds item.duration < cfg.min_video_length * 60
        · simp [hitOutcome, fetchOutcome, H1 e he, hd1, hkey_mem e he hm, hhead, hlive,
            hlow, validRec, Nat.not_le.mpr hlow]
        · by_cases hhigh : cfg.maxSeconds < iso_duration_to_seconds item.duration
          · simp [hitOutcome, fetchOutcome, H1 e he, hd1, hkey_mem e he hm, hhead, hlive,
              hhigh, validRec, Nat.not_le.mpr hhigh, Nat.le_of_not_lt hlow]
          · simp [hitOutcome, fetchOutcome, H1 e he, hd1, hkey_mem e he hm, hhead, hlive,
              hlow, hhigh, validRec, Nat.le_of_not_lt hlow, Nat.le_of_not_lt hhigh]
    -- the permutation chain
    have hleft : (entries.filter (fun e => (disk (entryKey e)).isSome)).filterMap
        (hitOutcome cfg (fetch_videos cfg entries (some items) disk).disk)
        = entries.filterMap (hitOutcome cfg disk) := by
      rw [List.filterMap_congr (g := hitOutcome cfg disk) ?hcg]
      case hcg =>
        intro e he
        have hmem := List.mem_filter.mp he
        rcases Option.isSome_iff_exists.mp hmem.2 with ⟨r, hr⟩
        exact hpoint_hit e hmem.1 r hr
      exact filterMap_filter_eq _ _ entries
        (fun e he hp => hitOutcome_of_miss (Option.not_isSome_iff_eq_none.mp (by simp [hp])))
    have hright : (entries.filter (fun e => !(disk (entryKey e)).isSome)).filterMap
        (hitOutcome cfg (fetch_videos cfg entries (some items) disk).disk)
        = entries.filterMap (fetchOutcome cfg (phase1 cfg disk entries).2.1 items) := by
      rw [List.filterMap_congr
          (g := fetchOutcome cfg (phase1 cfg disk entries).2.1 items) ?hcg2]
      case hcg2 =>
        intro e he
        have hmem := List.mem_filter.mp he
        have hs : (disk (entryKey e)).isSome = false := by simpa using hmem.2
        have hm : disk (entryKey e) = none :=
          Option.not_isSome_iff_eq_none.mp (by simp [hs])
        exact hpoint_miss e hmem.1 hm
      refine filterMap_filter_eq _ _ entries (fun e he hp => ?_)
      have hs : (disk (entryKey e)).isSome = true := by simpa using hp
      rcases Option.isSome_iff_exists.mp hs with ⟨r, hr⟩
      exact fetchOutcome_of_not_mem (hnot_fids_hit e he r hr)
    have hperm : (fetch_videos cfg entries resp2
        (fetch_videos cfg entries (some items) disk).disk).videos.Perm
        (fetch_videos cfg entries (some items) disk).videos := by
      rw [hcall2_videos, hcall1_videos]
      have hsplit := filterMap_perm_split (fun e => (disk (entryKey e)).isSome)
        (hitOutcome cfg (fetch_videos cfg entries (some items) disk).disk) entries
      refine hsplit.trans ?_
      rw [hleft, hright]
    refine ⟨by rw [hcall2], hperm, ?_⟩
    intro H5
    have hnil1 : entries.filterMap (hitOutcome cfg disk) = [] :=
      List.filterMap_eq_nil_iff.mpr (fun e he => hitOutcome_of_miss (H5 e he))
    rw [hcall2_videos, hcall1_videos, hnil1, List.nil_append]
    exact List.filterMap_congr (fun e he => hpoint_miss e he (H5 e he))
  · -- no entry was a cache miss: the first call already made no API call
    have hneed' : (phase1 cfg disk entries).2.2 = false := by simpa using hneed
    have hc1 := @fetch_videos_no_need cfg entries (some items) disk hnil hneed'
    have hd : (fetch_videos cfg entries (some items) disk).disk = disk := by rw [hc1]
    have hc2 : fetch_videos cfg entries resp2
        (fetch_videos cfg entries (some items) disk).disk
        = ⟨(phase1 cfg disk entries).1, disk, 0⟩ := by
      rw [hd]
      exact fetch_videos_no_need hnil hneed'
    refine ⟨by rw [hc2], ?_, fun _ => ?_⟩
    · rw [hc2, hc1]
    · rw [hc2, hc1]

/-- C2, witness: the amended theorem on a cold cache with one entry and a
covering response — the second call issues zero API calls and returns the
identical list. -/
theorem c2_witness :
    (fetch_videos exCfg [exEntryA] (some exItems)
        (fetch_videos exCfg [exEntryA] (some exItems) (fun _ => none)).disk).apiCalls = 0 ∧
      (fetch_videos exCfg [exEntryA] (some exItems)
          (fetch_videos exCfg [exEntryA] (some exItems) (fun _ => none)).disk).videos
        = (fetch_videos exCfg [exEntryA] (some exItems) (fun _ => none)).videos := by
  have h := c2_second_call_idempotent exCfg [exEntryA] exItems (fun _ => none)
    (by decide) (by decide)
    (by intro e _ r hr; exact Option.noConfusion hr)
    (by
      intro e he hm
      simp at he
      refine ⟨⟨"a", "PT10M", some "none"⟩, by simp [exItems], ?_⟩
      rw [he]
      rfl)
    (some exItems)
  exact ⟨h.1, h.2.2 (fun e _ => rfl)⟩

end YFeed
